import Mathlib

/-!
# infra-scout: rule evaluation, severity filtering, file matching and scanning

A shallow embedding of the Go packages `internal/models`, `internal/rules`,
`internal/scanner`, `internal/engine` and `internal/detectors` of infra-scout.

Conventions of the embedding:
* a Go slice is a `List` (a nil slice and an empty slice are both `[]`);
* a Go `error` is a message (`Err := String`), and a Go result pair
  `(value, error)` is kept as a pair whose second component is `none` for `nil`;
* a Go `map[string]bool` that is only read is the lookup function
  `String → Bool` (a missing key reads as `false`);
* `log.Printf` calls are not modelled.
-/

namespace InfraScout

/-- A Go `error`, kept as its message. -/
abbrev Err := String

/-! ## internal/models -/

/-- The severity names of `models/finding.go`. -/
def SeverityCritical : String := "CRITICAL"
def SeverityHigh : String := "HIGH"
def SeverityMedium : String := "MEDIUM"
def SeverityLow : String := "LOW"
def SeverityInfo : String := "INFO"

/-- The struct `models.Location`. -/
structure Location where
  File : String
  StartLine : Int
  EndLine : Int
  deriving DecidableEq, Repr

/-- The struct `models.Resource`.  The attribute values (`any` in Go) are never
inspected by the embedded code and are carried as strings; the field `Type` is
spelled `Type_`. -/
structure Resource where
  Type_ : String
  Name : String
  Provider : String
  Attributes : List (String × String)
  Location : Location
  deriving DecidableEq, Repr

/-- The struct `models.Finding`. -/
structure Finding where
  RuleID : String
  Severity : String
  Resource : Resource
  Title : String
  Description : String
  Remediation : String
  References : List String
  deriving DecidableEq, Repr

/-- The struct `models.ScanResult`. -/
structure ScanResult where
  SourceFile : String
  Provider : String
  Resources : List Resource
  Findings : List Finding
  deriving DecidableEq, Repr

/-- The struct `models.File` (a discovered file tagged with its provider). -/
structure File where
  Path : String
  Provider : String
  deriving DecidableEq, Repr

/-! ## internal/rules -/

/-- The struct `rules.Rule`; `Check` is a Go function value and may be nil. -/
structure Rule where
  ID : String
  Provider : String
  ResourceType : String
  Severity : String
  Title : String
  Description : String
  Remediation : String
  References : List String
  Check : Option (Resource → Bool)

/-- The method `DefaultRuleEngine.GetRulesForProvider`: one pass over the registered
rules, appending those whose provider is the argument or the wildcard. -/
def GetRulesForProvider (rules : List Rule) (provider : String) : List Rule :=
  rules.foldl
    (fun result rule =>
      if rule.Provider = provider ∨ rule.Provider = "*" then result ++ [rule] else result)
    []

/-- The body of the inner loop of `DefaultRuleEngine.Evaluate` for one rule. -/
def evaluateRule (resource : Resource) (findings : List Finding) (rule : Rule) :
    List Finding :=
  if rule.ResourceType ≠ "*" ∧ rule.ResourceType ≠ resource.Type_ then
    findings
  else
    match rule.Check with
    | some check =>
      if check resource then
        findings ++
          [{ RuleID := rule.ID
             Severity := rule.Severity
             Resource := resource
             Title := rule.Title
             Description := rule.Description
             Remediation := rule.Remediation
             References := rule.References }]
      else findings
    | none => findings

/-- The method `DefaultRuleEngine.Evaluate`: the outer loop runs over the resources,
the inner loop over `GetRulesForProvider resource.Provider`; the error is always nil. -/
def Evaluate (rules : List Rule) (resources : List Resource) :
    List Finding × Option Err :=
  (resources.foldl
      (fun findings resource =>
        (GetRulesForProvider rules resource.Provider).foldl (evaluateRule resource) findings)
      [],
    none)

/-! ### The findings the specification describes -/

/-- The condition under which the specification emits a finding for a pair
(resource, rule): both wildcard-or-exact tests hold and the check is present and
returns true. -/
def specEmits (resource : Resource) (rule : Rule) : Bool :=
  (rule.Provider == resource.Provider || rule.Provider == "*") &&
  (rule.ResourceType == resource.Type_ || rule.ResourceType == "*") &&
  (match rule.Check with
   | some check => check resource
   | none => false)

/-- The finding the specification describes for a pair (resource, rule). -/
def specFinding (resource : Resource) (rule : Rule) : Finding :=
  { RuleID := rule.ID
    Severity := rule.Severity
    Resource := resource
    Title := rule.Title
    Description := rule.Description
    Remediation := rule.Remediation
    References := rule.References }

/-! ## internal/analyzers, internal/detectors, internal/exporters: the interfaces -/

/-- The interface `analyzers.Analyzer`.  `Analyze` returns the Go pair
(resources, error); an implementation may return resources together with an error. -/
structure Analyzer where
  Analyze : String → List Resource × Option Err
  Provider : String

/-- The interface `rules.RuleEngine`, reduced to the method the scanner calls. -/
structure RuleEngine where
  Evaluate : List Resource → List Finding × Option Err

/-- The rule engine `DefaultRuleEngine` holding the registered `rules`. -/
def DefaultRuleEngine (rules : List Rule) : RuleEngine :=
  { Evaluate := Evaluate rules }

/-- The interface `detectors.Detector`.  Both methods return a Go pair; the channel
of `DetectFilesChannel` is kept as the list of files sent on it before it is closed. -/
structure Detector where
  DetectFiles : String → List String → List String → List File × Option Err
  DetectFilesChannel : String → List String → List String → List File × Option Err

/-- The interface `exporters.Exporter`: `Export results` returns an error or nil. -/
structure Exporter where
  Export : List ScanResult → Option Err

/-! ## internal/scanner -/

/-- The method `Scanner.ScanFile` for a scanner built by `NewScanner analyzer ruleEngine`:
`.error err` stands for the return `nil, err`, `.ok r` for `&r, nil`. -/
def ScanFile (analyzer : Analyzer) (ruleEngine : RuleEngine) (path : String) :
    Except Err ScanResult :=
  match analyzer.Analyze path with
  | (_, some err) => .error err
  | (resources, none) =>
    match ruleEngine.Evaluate resources with
    | (_, some err) => .error err
    | (findings, none) =>
      .ok { SourceFile := path
            Provider := analyzer.Provider
            Resources := resources
            Findings := findings }

/-! ## internal/engine -/

/-- The struct `engine.Config`; a nil `Exporter` is `none`. -/
structure Config where
  Providers : List String
  ExcludeDirs : List String
  Exporter : Option Exporter
  SequentialMode : Bool
  MinSeverity : String

/-- The struct `engine.Engine`; the map `analyzers` is kept as its lookup. -/
structure Engine where
  detector : Detector
  analyzers : String → Option Analyzer
  ruleEngine : RuleEngine
  config : Config

/-- The method `Engine.scanFile`. -/
def Engine.scanFile (e : Engine) (file : File) : Except Err ScanResult :=
  match e.analyzers file.Provider with
  | none => .error ("no analyzer registered for provider: " ++ file.Provider)
  | some analyzer => ScanFile analyzer e.ruleEngine file.Path

/-- The loop of `scanSequential` (and the appends of `scanConcurrent`, taken in the
order in which they happen): a failed file is skipped, a result is appended. -/
def Engine.scanAll (e : Engine) (files : List File) (scanResults : List ScanResult) :
    List ScanResult :=
  files.foldl
    (fun scanResults file =>
      match e.scanFile file with
      | .error _ => scanResults
      | .ok result => scanResults ++ [result])
    scanResults

/-- The export step shared by both modes: a configured exporter is called once on
the aggregate, and its failure becomes the error of the scan. -/
def Engine.exportResults (e : Engine) (scanResults : List ScanResult) :
    Except Err (List ScanResult) :=
  match e.config.Exporter with
  | none => .ok scanResults
  | some exporter =>
    match exporter.Export scanResults with
    | some err => .error ("failed to export results: " ++ err)
    | none => .ok scanResults

/-- The method `Engine.scanSequential`. -/
def Engine.scanSequential (e : Engine) (root : String) : Except Err (List ScanResult) :=
  match e.detector.DetectFiles root e.config.ExcludeDirs e.config.Providers with
  | (_, some err) => .error err
  | (files, none) => e.exportResults (e.scanAll files [])

/-- The method `Engine.scanConcurrent`.  One task is started per file received; each
task appends at most once, under the mutex, and the appends are all done when
`wg.Wait` returns.  The order in which the tasks reach the append is not fixed by
the program: it is the argument `sched`, applied to the files in the order received. -/
def Engine.scanConcurrent (e : Engine) (sched : List File → List File) (root : String)
    (scanResults : List ScanResult) : Except Err (List ScanResult) :=
  match e.detector.DetectFilesChannel root e.config.ExcludeDirs e.config.Providers with
  | (_, some err) => .error err
  | (files, none) => e.exportResults (e.scanAll (sched files) scanResults)

/-- The method `Engine.Scan`. -/
def Engine.Scan (e : Engine) (sched : List File → List File) (root : String) :
    Except Err (List ScanResult) :=
  if e.config.SequentialMode then e.scanSequential root
  else e.scanConcurrent sched root []

/-- The engine with `config.SequentialMode` set to the given value and everything
else unchanged. -/
def Engine.inMode (e : Engine) (sequential : Bool) : Engine :=
  { e with config := { e.config with SequentialMode := sequential } }

/-- The map literal `severityOrder` of `filterBySeverity`. -/
def severityOrder : List (String × Nat) :=
  [ (SeverityCritical, 5),
    (SeverityHigh, 4),
    (SeverityMedium, 3),
    (SeverityLow, 2),
    (SeverityInfo, 1) ]

/-- A read `m[key]` of a Go `map[string]int`: the zero value when the key is missing. -/
def mapIndex (m : List (String × Nat)) (key : String) : Nat :=
  (m.lookup key).getD 0

/-- The method `Engine.filterBySeverity`, as a function of `config.MinSeverity`. -/
def filterBySeverity (minSeverity : String) (findings : List Finding) : List Finding :=
  if minSeverity = "" then findings
  else
    let minLevel := mapIndex severityOrder minSeverity
    if minLevel = 0 then findings
    else
      findings.foldl
        (fun filtered f =>
          if mapIndex severityOrder f.Severity ≥ minLevel then filtered ++ [f] else filtered)
        []

/-- The rank the specification gives a severity: CRITICAL 5, HIGH 4, MEDIUM 3, LOW 2,
INFO 1, and 0 for any other string. -/
def specRank (severity : String) : Nat :=
  if severity = "CRITICAL" then 5
  else if severity = "HIGH" then 4
  else if severity = "MEDIUM" then 3
  else if severity = "LOW" then 2
  else if severity = "INFO" then 1
  else 0

/-! ## internal/detectors: file patterns -/

/-- Regular expressions, as far as the patterns of `patterns.go` use them. -/
inductive Re where
  | never
  | eps
  | lit (c : Char)
  | dot
  | anyc
  | seq (a b : Re)
  | alt (a b : Re)
  | star (a : Re)
  deriving Repr

/-- Whether the expression matches the empty text. -/
def Re.nullable : Re → Bool
  | .never => false
  | .eps => true
  | .lit _ => false
  | .dot => false
  | .anyc => false
  | .seq a b => a.nullable && b.nullable
  | .alt a b => a.nullable || b.nullable
  | .star _ => true

/-- The derivative of an expression by one character.  `dot` is the `.` of Go's
regexp without the `s` flag (any character but a newline); `anyc` is any character. -/
def Re.deriv : Re → Char → Re
  | .never, _ => .never
  | .eps, _ => .never
  | .lit c, x => if x = c then .eps else .never
  | .dot, x => if x = '\n' then .never else .eps
  | .anyc, _ => .eps
  | .seq a b, x =>
    if a.nullable then .alt (.seq (a.deriv x) b) (b.deriv x) else .seq (a.deriv x) b
  | .alt a b, x => .alt (a.deriv x) (b.deriv x)
  | .star a, x => .seq (a.deriv x) (.star a)

/-- Whether the expression matches the whole text. -/
def Re.fullMatch (r : Re) (text : List Char) : Bool :=
  (text.foldl Re.deriv r).nullable

/-- The expression matching exactly the given literal text. -/
def Re.str (s : String) : Re :=
  s.toList.foldr (fun c r => .seq (.lit c) r) .eps

/-- The operator `r?`. -/
def Re.opt (r : Re) : Re := .alt r .eps

/-- The operator `r+`. -/
def Re.plus (r : Re) : Re := .seq r (.star r)

/-- A compiled `*regexp.Regexp`: whether the source text starts with `^`, the
expression between the anchors, and whether the source text ends with `$`
(without the `m` flag, `^` and `$` match only at the two ends of the text). -/
structure Regexp where
  anchoredStart : Bool
  body : Re
  anchoredEnd : Bool
  deriving Repr

/-- The method `Regexp.MatchString`: whether some part of `s` matches; a side
without an anchor may be preceded or followed by any text. -/
def Regexp.MatchString (re : Regexp) (s : String) : Bool :=
  (Re.seq (if re.anchoredStart then .eps else .star .anyc)
    (Re.seq re.body (if re.anchoredEnd then .eps else .star .anyc))).fullMatch s.toList

/-- The struct `detectors.FilePattern`. -/
structure FilePattern where
  Regex : Regexp
  Provider : String
  deriving Repr

def ProviderDocker : String := "docker"
def ProviderTerraform : String := "terraform"
def ProviderKubernetes : String := "kubernetes"
def ProviderCloudFormation : String := "cloudformation"
def ProviderHelm : String := "helm"
def ProviderAnsible : String := "ansible"

/-- The expression `\.ya?ml`, shared by several patterns. -/
def yamlExt : Re :=
  .seq (.lit '.') (.seq (.lit 'y') (.seq (Re.opt (.lit 'a')) (Re.str "ml")))

/-- The pattern `^Dockerfile(\..+)?$`. -/
def DockerfilePattern : FilePattern :=
  { Regex := ⟨true, .seq (Re.str "Dockerfile") (Re.opt (.seq (.lit '.') (Re.plus .dot))), true⟩
    Provider := ProviderDocker }

/-- The pattern `^(docker-)?compose.*\.ya?ml$`. -/
def DockerComposePattern : FilePattern :=
  { Regex := ⟨true,
      .seq (Re.opt (Re.str "docker-")) (.seq (Re.str "compose") (.seq (.star .dot) yamlExt)),
      true⟩
    Provider := ProviderDocker }

/-- The pattern `^docker-bake\.(hcl|json)$`. -/
def DockerBakePattern : FilePattern :=
  { Regex := ⟨true, .seq (Re.str "docker-bake.") (.alt (Re.str "hcl") (Re.str "json")), true⟩
    Provider := ProviderDocker }

/-- The pattern `\.tf$`. -/
def TerraformPattern : FilePattern :=
  { Regex := ⟨false, Re.str ".tf", true⟩, Provider := ProviderTerraform }

/-- The pattern `\.tfvars$`. -/
def TerraformVarsPattern : FilePattern :=
  { Regex := ⟨false, Re.str ".tfvars", true⟩, Provider := ProviderTerraform }

/-- The pattern `\.(ya?ml)$`. -/
def KubernetesPattern : FilePattern :=
  { Regex := ⟨false, yamlExt, true⟩, Provider := ProviderKubernetes }

/-- The pattern `^Chart\.ya?ml$`. -/
def HelmChartPattern : FilePattern :=
  { Regex := ⟨true, .seq (Re.str "Chart") yamlExt, true⟩, Provider := ProviderHelm }

/-- The pattern `^values.*\.ya?ml$`. -/
def HelmValuesPattern : FilePattern :=
  { Regex := ⟨true, .seq (Re.str "values") (.seq (.star .dot) yamlExt), true⟩
    Provider := ProviderHelm }

/-- The pattern `\.(ya?ml|json)$`. -/
def CloudFormationPattern : FilePattern :=
  { Regex := ⟨false, .alt yamlExt (Re.str ".json"), true⟩, Provider := ProviderCloudFormation }

/-- The pattern `^(playbook|site|main).*\.ya?ml$`. -/
def AnsiblePlaybookPattern : FilePattern :=
  { Regex := ⟨true,
      .seq (.alt (Re.str "playbook") (.alt (Re.str "site") (Re.str "main")))
        (.seq (.star .dot) yamlExt),
      true⟩
    Provider := ProviderAnsible }

/-- The map `DefaultFilePatterns`, as the list of its entries in source order. -/
def DefaultFilePatterns : List (String × List FilePattern) :=
  [ (ProviderDocker, [DockerfilePattern, DockerComposePattern, DockerBakePattern]),
    (ProviderTerraform, [TerraformPattern, TerraformVarsPattern]),
    (ProviderKubernetes, [KubernetesPattern]),
    (ProviderHelm, [HelmChartPattern, HelmValuesPattern]),
    (ProviderCloudFormation, [CloudFormationPattern]),
    (ProviderAnsible, [AnsiblePlaybookPattern]) ]

/-- The map `HighConfidencePatterns`, as the list of its entries in source order. -/
def HighConfidencePatterns : List (String × List FilePattern) :=
  [ (ProviderDocker, [DockerfilePattern, DockerComposePattern]),
    (ProviderTerraform, [TerraformPattern, TerraformVarsPattern]),
    (ProviderHelm, [HelmChartPattern]) ]

/-- The function `AllProviders`. -/
def AllProviders : List String :=
  [ ProviderDocker, ProviderTerraform, ProviderKubernetes, ProviderCloudFormation,
    ProviderHelm, ProviderAnsible ]

/-! ## internal/detectors/filesystem -/

/-- The function `strings.HasSuffix`. -/
def HasSuffix (s suffix : String) : Bool :=
  suffix.toList.isSuffixOf s.toList

/-- The inner loop of `matchFile`: whether one of the patterns matches the name. -/
def matchPatterns : List FilePattern → String → Bool
  | [], _ => false
  | pattern :: rest, name =>
    if pattern.Regex.MatchString name then true else matchPatterns rest name

/-- The outer loop of `matchFile` over the entries of the pattern table, in the
order `visited` in which the `range` over the Go map yields them: the provider of
the first entry that is requested and has a matching pattern. -/
def matchHighConfidence :
    List (String × List FilePattern) → String → (String → Bool) → Option String
  | [], _, _ => none
  | (provider, patterns) :: rest, name, providerSet =>
    if !providerSet provider then matchHighConfidence rest name providerSet
    else if matchPatterns patterns name then some provider
    else matchHighConfidence rest name providerSet

/-- The method `FSDetector.matchFile`.  A `range` over a Go map yields every entry
once, in an order the language leaves unspecified; `visited` is that order for
this call, a permutation of `HighConfidencePatterns`. -/
def matchFile (visited : List (String × List FilePattern)) (path name : String)
    (providerSet : String → Bool) : File × Bool :=
  match matchHighConfidence visited name providerSet with
  | some provider => ({ Path := path, Provider := provider }, true)
  | none =>
    if providerSet ProviderTerraform then
      if HasSuffix name ".tf" || HasSuffix name ".tfvars" then
        ({ Path := path, Provider := ProviderTerraform }, true)
      else ({ Path := "", Provider := "" }, false)
    else ({ Path := "", Provider := "" }, false)

/-- The provider set that `DetectFiles` builds from the `providers` argument. -/
def providerSetOf (providers : List String) : String → Bool :=
  if providers.length = 0 then fun p => AllProviders.contains p
  else fun p => providers.contains p

/-! ### The directory tree and `filepath.Walk` -/

/-- What the walk reads of an `os.FileInfo`. -/
structure FileInfo where
  Name : String
  IsDir : Bool

/-- A file-system object with what lies below it: a regular file, a directory with
its entries in the order `readDirNames` lists them, a directory whose entries cannot
be read, or an entry on which `Lstat` fails. -/
inductive FsNode where
  | file (name : String)
  | dir (name : String) (children : List FsNode)
  | unreadableDir (name : String) (err : Err)
  | noStat (name : String) (err : Err)

/-- The base name of a file-system object. -/
def FsNode.name : FsNode → String
  | .file name => name
  | .dir name _ => name
  | .unreadableDir name _ => name
  | .noStat name _ => name

/-- Whether `Lstat` reports the object as a directory. -/
def FsNode.isDir : FsNode → Bool
  | .dir _ _ => true
  | .unreadableDir _ _ => true
  | _ => false

/-- A non-nil error returned by a `filepath.WalkFunc`: `filepath.SkipDir` or another. -/
inductive WalkErr where
  | skipDir
  | other (err : Err)

/-- The arguments `(info, err)` of a `filepath.WalkFunc` call: a nil error with the
file info, or an error with the info when `Lstat` had succeeded. -/
inductive WalkEntry where
  | ok (info : FileInfo)
  | failed (info : Option FileInfo) (err : Err)

/-- A `filepath.WalkFunc` acting on a state of type `σ` (the variables it captures). -/
abbrev WalkFunc (σ : Type) := String → WalkEntry → σ → σ × Option WalkErr

mutual
/-- The function `walk` of `path/filepath`, on an object `Lstat` succeeded on;
`join` is `filepath.Join`. -/
def walk {σ : Type} (join : String → String → String) (fn : WalkFunc σ) (path : String) :
    FsNode → σ → σ × Option WalkErr
  | .file name, st => fn path (.ok ⟨name, false⟩) st
  | .dir name children, st =>
    match fn path (.ok ⟨name, true⟩) st with
    | (st1, none) => walkChildren join fn path children st1
    | (st1, some e) => (st1, some e)
  | .unreadableDir name err, st => fn path (.failed (some ⟨name, true⟩) err) st
  | .noStat _ err, st => fn path (.failed none err) st
/-- The loop of `walk` over the entries of a directory. -/
def walkChildren {σ : Type} (join : String → String → String) (fn : WalkFunc σ)
    (path : String) : List FsNode → σ → σ × Option WalkErr
  | [], st => (st, none)
  | child :: rest, st =>
    match child with
    | .noStat name err =>
      match fn (join path name) (.failed none err) st with
      | (st1, some (.other e)) => (st1, some (.other e))
      | (st1, _) => walkChildren join fn path rest st1
    | child =>
      match walk join fn (join path child.name) child st with
      | (st1, none) => walkChildren join fn path rest st1
      | (st1, some .skipDir) =>
        if child.isDir then walkChildren join fn path rest st1 else (st1, some .skipDir)
      | (st1, some (.other e)) => (st1, some (.other e))
end

/-- The function `filepath.Walk`, on the object `node` found at `root`. -/
def Walk {σ : Type} (join : String → String → String) (fn : WalkFunc σ) (root : String)
    (node : FsNode) (st : σ) : σ × Option Err :=
  match walk join fn root node st with
  | (st1, some (.other e)) => (st1, some e)
  | (st1, _) => (st1, none)

/-- The slice `defaultExcludes` of `shouldExclude`. -/
def defaultExcludes : List String :=
  [".git", ".terraform", "node_modules", "vendor", ".venv", "__pycache__"]

/-- The method `FSDetector.shouldExclude`. -/
def shouldExclude (name : String) (excludeSet : String → Bool) : Bool :=
  if defaultExcludes.any (fun exclude => name == exclude) then true else excludeSet name

/-- The exclusion set that `DetectFiles` builds from the `excludeDirs` argument. -/
def excludeSetOf (excludeDirs : List String) : String → Bool :=
  fun dir => excludeDirs.contains dir

/-- The function literal that `DetectFiles` passes to `filepath.Walk`; its state is
the captured slice `files`.  `visit path` is the order in which the call of
`matchFile` for `path` visits the pattern table. -/
def detectWalkFn (visit : String → List (String × List FilePattern))
    (excludeSet providerSet : String → Bool) : WalkFunc (List File)
  | _, .failed _ err, files => (files, some (.other err))
  | path, .ok info, files =>
    if info.IsDir then
      if shouldExclude info.Name excludeSet then (files, some .skipDir) else (files, none)
    else
      match matchFile (visit path) path info.Name providerSet with
      | (file, true) => (files ++ [file], none)
      | (_, false) => (files, none)

/-- The method `FSDetector.DetectFiles`, on the tree `fs` found at `root`. -/
def DetectFiles (join : String → String → String)
    (visit : String → List (String × List FilePattern)) (fs : FsNode) (root : String)
    (excludeDirs providers : List String) : List File × Option Err :=
  match Walk join (detectWalkFn visit (excludeSetOf excludeDirs) (providerSetOf providers))
      root fs [] with
  | (_, some err) => ([], some err)
  | (files, none) => (files, none)

/-- The relation `FileAt join node path ancestors filePath fileName`: in the tree
`node`, which sits at `path`, there is a regular file named `fileName` whose path
is `filePath`, and `ancestors` lists the names of the directories from `node`
itself down to the directory holding the file. -/
inductive FileAt (join : String → String → String) :
    FsNode → String → List String → String → String → Prop where
  | atFile (name path : String) : FileAt join (.file name) path [] path name
  | inDir (name : String) (children : List FsNode) (path : String) (child : FsNode)
      (ancestors : List String) (filePath fileName : String) :
      child ∈ children →
      FileAt join child (join path child.name) ancestors filePath fileName →
      FileAt join (.dir name children) path (name :: ancestors) filePath fileName

mutual
/-- The tree with the entries of every directory removed whose name satisfies
`excluded`. -/
def pruneExcluded (excluded : String → Bool) : FsNode → FsNode
  | .dir name children =>
    if excluded name then .dir name []
    else .dir name (pruneChildren excluded children)
  | .file name => .file name
  | .unreadableDir name err => .unreadableDir name err
  | .noStat name err => .noStat name err
/-- The list of entries with `pruneExcluded` applied to each. -/
def pruneChildren (excluded : String → Bool) : List FsNode → List FsNode
  | [] => []
  | child :: rest => pruneExcluded excluded child :: pruneChildren excluded rest
end

/-- The property `YieldedFrom … node path f`: the file `f` is what `matchFile`
returns for a regular file of the tree `node` (sitting at `path`), and none of the
directories from `node` down to that file is excluded. -/
def YieldedFrom (join : String → String → String)
    (visit : String → List (String × List FilePattern))
    (excludeSet providerSet : String → Bool) (node : FsNode) (path : String) (f : File) :
    Prop :=
  ∃ ancestors fileName,
    FileAt join node path ancestors f.Path fileName ∧
    (∀ d ∈ ancestors, shouldExclude d excludeSet = false) ∧
    matchFile (visit f.Path) f.Path fileName providerSet = (f, true)

/-! ### The tasks of `scanConcurrent` as a transition system

Every statement of the function literal and of the main routine is one atomic step,
except the assignment `scanResults = append(scanResults, result)`, which is a read
of the shared slice followed by a write; steps of different routines interleave in
any order. -/

/-- Where a task (one call of the function literal of `scanConcurrent`) stands. -/
inductive TaskPc where
  | scanning
  | failed
  | waiting (result : ScanResult)
  | locked (result : ScanResult)
  | appending (result : ScanResult) (seen : List ScanResult)
  | appended
  | unlocked
  | finished
  deriving DecidableEq, Repr

/-- A started task: the file it was given and where it stands. -/
structure Task where
  file : File
  pc : TaskPc
  deriving DecidableEq, Repr

/-- Where the routine that runs `scanConcurrent` stands: in the `for … range` loop
with the files not yet received from the channel, in `wg.Wait`, or past it. -/
inductive MainPc where
  | receiving (pending : List File)
  | waiting
  | joined
  deriving DecidableEq, Repr

/-- The state shared by the routines of `scanConcurrent`: the tasks started so far,
the slice `scanResults`, whether `mu` is held, and the counter of `wg`. -/
structure ConcState where
  main : MainPc
  tasks : List Task
  scanResults : List ScanResult
  mu : Bool
  wg : Nat
  deriving DecidableEq, Repr

/-- The state in which the loop over the channel starts. -/
def concInit (files : List File) (scanResults : List ScanResult) : ConcState :=
  { main := .receiving files, tasks := [], scanResults := scanResults, mu := false, wg := 0 }

/-- One atomic step of `scanConcurrent`, by the main routine or by one task. -/
inductive ConcStep (e : Engine) : ConcState → ConcState → Prop where
  /-- The loop receives a file: `wg.Add(1)` and the `go` statement. -/
  | receive (file : File) (pending : List File) (tasks : List Task)
      (scanResults : List ScanResult) (mu : Bool) (wg : Nat) :
      ConcStep e ⟨.receiving (file :: pending), tasks, scanResults, mu, wg⟩
        ⟨.receiving pending, tasks ++ [⟨file, .scanning⟩], scanResults, mu, wg + 1⟩
  /-- The channel is closed and drained: the loop ends. -/
  | closed (tasks : List Task) (scanResults : List ScanResult) (mu : Bool) (wg : Nat) :
      ConcStep e ⟨.receiving [], tasks, scanResults, mu, wg⟩ ⟨.waiting, tasks, scanResults, mu, wg⟩
  /-- The call `wg.Wait()` returns, which it does only when the counter is zero. -/
  | join (tasks : List Task) (scanResults : List ScanResult) (mu : Bool) :
      ConcStep e ⟨.waiting, tasks, scanResults, mu, 0⟩ ⟨.joined, tasks, scanResults, mu, 0⟩
  /-- The call `e.scanFile(f)` returns a result. -/
  | scanOk (main : MainPc) (pre post : List Task) (file : File) (result : ScanResult)
      (scanResults : List ScanResult) (mu : Bool) (wg : Nat) :
      e.scanFile file = .ok result →
      ConcStep e ⟨main, pre ++ ⟨file, .scanning⟩ :: post, scanResults, mu, wg⟩
        ⟨main, pre ++ ⟨file, .waiting result⟩ :: post, scanResults, mu, wg⟩
  /-- The call `e.scanFile(f)` returns an error: the task logs it and returns. -/
  | scanErr (main : MainPc) (pre post : List Task) (file : File) (err : Err)
      (scanResults : List ScanResult) (mu : Bool) (wg : Nat) :
      e.scanFile file = .error err →
      ConcStep e ⟨main, pre ++ ⟨file, .scanning⟩ :: post, scanResults, mu, wg⟩
        ⟨main, pre ++ ⟨file, .failed⟩ :: post, scanResults, mu, wg⟩
  /-- The call `mu.Lock()` returns, which it does only when the mutex is free. -/
  | lock (main : MainPc) (pre post : List Task) (file : File) (result : ScanResult)
      (scanResults : List ScanResult) (wg : Nat) :
      ConcStep e ⟨main, pre ++ ⟨file, .waiting result⟩ :: post, scanResults, false, wg⟩
        ⟨main, pre ++ ⟨file, .locked result⟩ :: post, scanResults, true, wg⟩
  /-- The `append` reads the shared slice. -/
  | read (main : MainPc) (pre post : List Task) (file : File) (result : ScanResult)
      (scanResults : List ScanResult) (mu : Bool) (wg : Nat) :
      ConcStep e ⟨main, pre ++ ⟨file, .locked result⟩ :: post, scanResults, mu, wg⟩
        ⟨main, pre ++ ⟨file, .appending result scanResults⟩ :: post, scanResults, mu, wg⟩
  /-- The assignment writes the slice it read, extended by the result. -/
  | write (main : MainPc) (pre post : List Task) (file : File) (result : ScanResult)
      (seen scanResults : List ScanResult) (mu : Bool) (wg : Nat) :
      ConcStep e ⟨main, pre ++ ⟨file, .appending result seen⟩ :: post, scanResults, mu, wg⟩
        ⟨main, pre ++ ⟨file, .appended⟩ :: post, seen ++ [result], mu, wg⟩
  /-- The call `mu.Unlock()`. -/
  | unlock (main : MainPc) (pre post : List Task) (file : File)
      (scanResults : List ScanResult) (mu : Bool) (wg : Nat) :
      ConcStep e ⟨main, pre ++ ⟨file, .appended⟩ :: post, scanResults, mu, wg⟩
        ⟨main, pre ++ ⟨file, .unlocked⟩ :: post, scanResults, false, wg⟩
  /-- The deferred `wg.Done()` after a successful append. -/
  | doneOk (main : MainPc) (pre post : List Task) (file : File)
      (scanResults : List ScanResult) (mu : Bool) (wg : Nat) :
      ConcStep e ⟨main, pre ++ ⟨file, .unlocked⟩ :: post, scanResults, mu, wg + 1⟩
        ⟨main, pre ++ ⟨file, .finished⟩ :: post, scanResults, mu, wg⟩
  /-- The deferred `wg.Done()` after a failed scan. -/
  | doneErr (main : MainPc) (pre post : List Task) (file : File)
      (scanResults : List ScanResult) (mu : Bool) (wg : Nat) :
      ConcStep e ⟨main, pre ++ ⟨file, .failed⟩ :: post, scanResults, mu, wg + 1⟩
        ⟨main, pre ++ ⟨file, .finished⟩ :: post, scanResults, mu, wg⟩

/-- The states that an execution of `scanConcurrent` can be in, for the files sent
on the channel and the slice passed in. -/
def ConcReachable (e : Engine) (files : List File) (scanResults : List ScanResult)
    (s : ConcState) : Prop :=
  Relation.ReflTransGen (ConcStep e) (concInit files scanResults) s

/-- What the scan of one file adds to the aggregate: its result, or nothing. -/
def fileResults (e : Engine) (file : File) : List ScanResult :=
  match e.scanFile file with
  | .ok result => [result]
  | .error _ => []

/-- Whether the task has not yet called `wg.Done()`. -/
def TaskPc.active : TaskPc → Bool
  | .finished => false
  | _ => true

/-- Whether the task is between `mu.Lock()` and `mu.Unlock()`. -/
def TaskPc.inCritical : TaskPc → Bool
  | .locked _ => true
  | .appending _ _ => true
  | .appended => true
  | _ => false

/-- Whether the task is past the write of its append, or has returned. -/
def TaskPc.written : TaskPc → Bool
  | .appended => true
  | .unlocked => true
  | .finished => true
  | _ => false

/-- The result that a task holds and has not yet written. -/
def TaskPc.carried : TaskPc → Option ScanResult
  | .waiting result => some result
  | .locked result => some result
  | .appending result _ => some result
  | _ => none

/-- What a task has added to the shared slice so far. -/
def Task.contributed (e : Engine) (t : Task) : List ScanResult :=
  if t.pc.written then fileResults e t.file else []

/-- The number of steps a task can still take. -/
def TaskPc.stepsLeft : TaskPc → Nat
  | .scanning => 7
  | .waiting _ => 5
  | .locked _ => 4
  | .appending _ _ => 3
  | .appended => 2
  | .unlocked => 1
  | .failed => 1
  | .finished => 0

/-- A bound on the number of steps an execution can still take from a state. -/
def ConcState.stepsLeft (s : ConcState) : Nat :=
  (match s.main with
   | .receiving pending => 8 * pending.length + 2
   | .waiting => 1
   | .joined => 0) + (s.tasks.map (fun t => t.pc.stepsLeft)).sum

/-- The invariant of the executions of `scanConcurrent` on the files `files`,
started with the slice `initial`. -/
structure ConcInv (e : Engine) (files : List File) (initial : List ScanResult)
    (s : ConcState) : Prop where
  dispatched :
    s.tasks.map Task.file ++
      (match s.main with
       | .receiving pending => pending
       | _ => []) = files
  counter : s.wg = s.tasks.countP (fun t => t.pc.active)
  joinedZero : s.main = .joined → s.wg = 0
  mutex : s.tasks.countP (fun t => t.pc.inCritical) = if s.mu then 1 else 0
  seenCurrent : ∀ t ∈ s.tasks, ∀ result seen, t.pc = .appending result seen →
    seen = s.scanResults
  carriedOk : ∀ t ∈ s.tasks, ∀ result, t.pc.carried = some result →
    e.scanFile t.file = .ok result
  failedErr : ∀ t ∈ s.tasks, t.pc = .failed → fileResults e t.file = []
  aggregate : s.scanResults.Perm (initial ++ s.tasks.flatMap (Task.contributed e))

/-! ## internal/exporters/jsonexporter -/

/-- One entry of the exported `findings` list: the map with the keys `finding` and
`file`. -/
structure FindingWithFile where
  finding : Finding
  file : String
  deriving DecidableEq, Repr

/-- The local variables that the loops of `JSONExporter.Export` update. -/
structure ExportCounts where
  findings : List FindingWithFile
  criticalCount : Nat
  highCount : Nat
  mediumCount : Nat
  lowCount : Nat
  deriving DecidableEq, Repr

/-- The body of the inner loop of `JSONExporter.Export`: the finding is appended
with the file of its result, then the `switch` on its severity counts it. -/
def exportFinding (sourceFile : String) (st : ExportCounts) (finding : Finding) :
    ExportCounts :=
  let st1 := { st with findings := st.findings ++ [{ finding := finding, file := sourceFile }] }
  if finding.Severity = SeverityCritical then
    { st1 with criticalCount := st1.criticalCount + 1 }
  else if finding.Severity = SeverityHigh then
    { st1 with highCount := st1.highCount + 1 }
  else if finding.Severity = SeverityMedium then
    { st1 with mediumCount := st1.mediumCount + 1 }
  else if finding.Severity = SeverityLow then
    { st1 with lowCount := st1.lowCount + 1 }
  else st1

/-- The two nested loops of `JSONExporter.Export`, from the initial counters. -/
def exportLoop (results : List ScanResult) : ExportCounts :=
  results.foldl
    (fun st result => result.Findings.foldl (exportFinding result.SourceFile) st)
    { findings := [], criticalCount := 0, highCount := 0, mediumCount := 0, lowCount := 0 }

/-- The value `output` that `JSONExporter.Export` encodes: the map `summary`, kept
as the list of its entries in source order, and the list `findings`. -/
structure ExportOutput where
  summary : List (String × Nat)
  findings : List FindingWithFile
  deriving DecidableEq, Repr

/-- The value `output` that `JSONExporter.Export` builds from the results. -/
def exportOutput (results : List ScanResult) : ExportOutput :=
  let st := exportLoop results
  { summary :=
      [ ("Total Findings", st.findings.length),
        ("Critical", st.criticalCount),
        ("High", st.highCount),
        ("Medium", st.mediumCount),
        ("Low", st.lowCount) ]
    findings := st.findings }

/-- The method `JSONExporter.Export`.  `create` is `os.Create` on the output file
and `encode` is the JSON encoder writing to it; each returns an error or nil. -/
def JSONExporter.Export (create : String → Option Err) (encode : ExportOutput → Option Err)
    (outputFile : String) (results : List ScanResult) : Option Err :=
  match create outputFile with
  | some err => some ("failed to create file " ++ outputFile ++ ": " ++ err)
  | none =>
    match encode (exportOutput results) with
    | some err => some ("failed to encode results to JSON: " ++ err)
    | none => none

/-- The result that the specification expects of one discovered file in a scan: none
when no analyzer is registered for its provider or the analyzer fails, else the
result built from the analyzer's resources. -/
def specResultOf (e : Engine) (file : File) : Option ScanResult :=
  match e.analyzers file.Provider with
  | none => none
  | some analyzer =>
    match analyzer.Analyze file.Path with
    | (_, some _) => none
    | (resources, none) =>
      some { SourceFile := file.Path
             Provider := analyzer.Provider
             Resources := resources
             Findings := (e.ruleEngine.Evaluate resources).1 }

/-- Whether the error `outer` wraps the error `inner`, in the sense in which the
specification speaks of an error wrapping the analyzer's own error: `outer` is a new
error that carries `inner` behind a context of its own, the way the `fmt.Errorf`
calls of `engine.go` put a context before the error they report.  An error does
not wrap itself. -/
def wrapsError (outer inner : Err) : Bool :=
  decide (inner.length < outer.length) && HasSuffix outer inner

/-- The result of one discovered file in a scan, following `Engine.scanFile` and
`Scanner.ScanFile` case by case: none when no analyzer is registered for its
provider, when the analyzer fails or when the rule engine fails on the analyzer's
resources, else the result built from the resources and the findings. -/
def scanResultOf (e : Engine) (file : File) : Option ScanResult :=
  match e.analyzers file.Provider with
  | none => none
  | some analyzer =>
    match analyzer.Analyze file.Path with
    | (_, some _) => none
    | (resources, none) =>
      match e.ruleEngine.Evaluate resources with
      | (_, some _) => none
      | (findings, none) =>
        some { SourceFile := file.Path
               Provider := analyzer.Provider
               Resources := resources
               Findings := findings }

/-! ## Concrete inputs -/

/-- A rule with both wildcards and a check that is true everywhere. -/
def wildcardRule : Rule :=
  { ID := "ANY-001", Provider := "*", ResourceType := "*", Severity := "LOW",
    Title := "t", Description := "d", Remediation := "r", References := [],
    Check := some (fun _ => true) }

/-- Two resources of different providers and types. -/
def mixedResources : List Resource :=
  [ { Type_ := "image", Name := "base", Provider := "docker", Attributes := [],
      Location := { File := "Dockerfile", StartLine := 1, EndLine := 1 } },
    { Type_ := "aws_s3_bucket", Name := "logs", Provider := "terraform", Attributes := [],
      Location := { File := "main.tf", StartLine := 3, EndLine := 9 } } ]

/-- A finding of the given rule and severity on a fixed docker resource. -/
def findingOf (ruleID severity : String) : Finding :=
  { RuleID := ruleID, Severity := severity,
    Resource := { Type_ := "image", Name := "base", Provider := "docker", Attributes := [],
                  Location := { File := "Dockerfile", StartLine := 1, EndLine := 1 } },
    Title := "t", Description := "d", Remediation := "r", References := [] }

/-- One finding of each severity, in increasing order of severity, then an unknown one. -/
def sampleFindings : List Finding :=
  [ findingOf "R1" "INFO", findingOf "R2" "LOW", findingOf "R3" "MEDIUM",
    findingOf "R4" "HIGH", findingOf "R5" "CRITICAL", findingOf "R6" "urgent" ]

/-- A docker rule of severity LOW that flags every resource named `base`. -/
def lowRule : Rule :=
  { ID := "DOCKER-001", Provider := "docker", ResourceType := "*", Severity := "LOW",
    Title := "t", Description := "d", Remediation := "r", References := [],
    Check := some (fun resource => resource.Name == "base") }

/-- The resource the sample analyzer extracts from a file. -/
def baseResource (path : String) : Resource :=
  { Type_ := "image", Name := "base", Provider := "docker", Attributes := [],
    Location := { File := path, StartLine := 1, EndLine := 1 } }

/-- An analyzer that extracts one resource named `base` from every file. -/
def dockerAnalyzer : Analyzer :=
  { Analyze := fun path => ([baseResource path], none), Provider := "docker" }

/-- An analyzer that fails on every file, returning a partial resource list as well. -/
def failingAnalyzer : Analyzer :=
  { Analyze := fun path => ([baseResource path], some "parse error"), Provider := "docker" }

/-- A detector that finds the single file `Dockerfile` under the root. -/
def oneFileDetector : Detector :=
  { DetectFiles := fun root _ _ => ([{ Path := root ++ "/Dockerfile", Provider := "docker" }], none)
    DetectFilesChannel :=
      fun root _ _ => ([{ Path := root ++ "/Dockerfile", Provider := "docker" }], none) }

/-- An exporter that accepts a report only if every finding in it is CRITICAL or HIGH. -/
def strictExporter : Exporter :=
  { Export := fun results =>
      if results.all (fun r => r.Findings.all (fun f => decide (specRank f.Severity ≥ 4)))
      then none else some "finding below HIGH" }

/-- An engine with minimum severity HIGH, the docker analyzer and the LOW rule. -/
def highEngine (sequential : Bool) (exporter : Option Exporter) : Engine :=
  { detector := oneFileDetector
    analyzers := fun provider => if provider = "docker" then some dockerAnalyzer else none
    ruleEngine := DefaultRuleEngine [lowRule]
    config :=
      { Providers := ["docker"], ExcludeDirs := [], Exporter := exporter,
        SequentialMode := sequential, MinSeverity := "HIGH" } }

/-- The finding of the LOW rule on the resource of `repo/Dockerfile`. -/
def lowFinding : Finding :=
  { RuleID := "DOCKER-001", Severity := "LOW", Resource := baseResource "repo/Dockerfile",
    Title := "t", Description := "d", Remediation := "r", References := [] }

/-- The result of scanning `repo/Dockerfile` with the LOW rule. -/
def lowResult : ScanResult :=
  { SourceFile := "repo/Dockerfile", Provider := "docker",
    Resources := [baseResource "repo/Dockerfile"], Findings := [lowFinding] }

/-- The provider set holding exactly docker and terraform. -/
def dockerAndTerraform : String → Bool :=
  fun p => p == "docker" || p == "terraform"

/-- The entries of `HighConfidencePatterns` with terraform visited before docker. -/
def terraformFirst : List (String × List FilePattern) :=
  [ (ProviderTerraform, [TerraformPattern, TerraformVarsPattern]),
    (ProviderDocker, [DockerfilePattern, DockerComposePattern]),
    (ProviderHelm, [HelmChartPattern]) ]

/-- The path join used in the examples: directory, separator, name. -/
def slashJoin (dir name : String) : String := dir ++ "/" ++ name

/-- A repository with a `Dockerfile`, a Terraform file inside `vendor`, a Terraform
file inside the user-excluded directory `build`, and a Terraform file in `infra`. -/
def sampleTree : FsNode :=
  .dir "repo"
    [ .file "Dockerfile",
      .dir "build" [.file "gen.tf"],
      .dir "infra" [.file "main.tf", .dir "node_modules" [.file "x.tf"]],
      .dir "vendor" [.file "dep.tf", .noStat "gone" "lstat failed"] ]

/-- A detector that finds four files: a Dockerfile, a Helm chart (no analyzer is
registered for helm), a Terraform file (its analyzer fails) and a second Dockerfile. -/
def fourFileDetector : Detector :=
  { DetectFiles := fun root _ _ =>
      ([ { Path := root ++ "/Dockerfile", Provider := "docker" },
         { Path := root ++ "/Chart.yaml", Provider := "helm" },
         { Path := root ++ "/main.tf", Provider := "terraform" },
         { Path := root ++ "/api/Dockerfile", Provider := "docker" } ], none)
    DetectFilesChannel := fun root _ _ =>
      ([ { Path := root ++ "/Dockerfile", Provider := "docker" },
         { Path := root ++ "/Chart.yaml", Provider := "helm" },
         { Path := root ++ "/main.tf", Provider := "terraform" },
         { Path := root ++ "/api/Dockerfile", Provider := "docker" } ], none) }

/-- The files that `fourFileDetector` finds under `repo`. -/
def fourFiles : List File :=
  [ { Path := "repo/Dockerfile", Provider := "docker" },
    { Path := "repo/Chart.yaml", Provider := "helm" },
    { Path := "repo/main.tf", Provider := "terraform" },
    { Path := "repo/api/Dockerfile", Provider := "docker" } ]

/-- An engine over the four files, with the docker analyzer, a Terraform analyzer
that always fails, no helm analyzer, and the LOW rule. -/
def mixedEngine (sequential : Bool) : Engine :=
  { detector := fourFileDetector
    analyzers := fun provider =>
      if provider = "docker" then some dockerAnalyzer
      else if provider = "terraform" then some failingAnalyzer
      else none
    ruleEngine := DefaultRuleEngine [lowRule]
    config :=
      { Providers := [], ExcludeDirs := [], Exporter := none,
        SequentialMode := sequential, MinSeverity := "" } }

/-- The result of scanning `path` with the docker analyzer and the LOW rule. -/
def lowResultAt (path : String) : ScanResult :=
  { SourceFile := path, Provider := "docker", Resources := [baseResource path],
    Findings :=
      [ { RuleID := "DOCKER-001", Severity := "LOW", Resource := baseResource path,
          Title := "t", Description := "d", Remediation := "r", References := [] } ] }

/-- The two results of the end-to-end scenario: the Dockerfile with one CRITICAL
finding, and `main.tf` with a resource and no finding. -/
def scenarioResults : List ScanResult :=
  [ { SourceFile := "repo/Dockerfile", Provider := "docker",
      Resources := [baseResource "repo/Dockerfile"],
      Findings := [findingOf "DOCKER-001" "CRITICAL"] },
    { SourceFile := "repo/main.tf", Provider := "terraform",
      Resources :=
        [ { Type_ := "aws_s3_bucket", Name := "logs", Provider := "terraform",
            Attributes := [],
            Location := { File := "repo/main.tf", StartLine := 1, EndLine := 4 } } ],
      Findings := [] } ]

/-- The provider set holding exactly kubernetes, cloudformation and ansible. -/
def yamlOnlyProviders : String → Bool :=
  fun p => p == "kubernetes" || p == "cloudformation" || p == "ansible"

/-- The file that `oneFileDetector` finds under `repo`. -/
def repoDockerfile : File := { Path := "repo/Dockerfile", Provider := "docker" }

/-- The second file of `fourFiles`; no analyzer is registered for helm. -/
def chartFile : File := { Path := "repo/Chart.yaml", Provider := "helm" }

/-- The third file of `fourFiles`; the Terraform analyzer fails on it. -/
def terraformFile : File := { Path := "repo/main.tf", Provider := "terraform" }

/-- The fourth file of `fourFiles`. -/
def apiDockerfile : File := { Path := "repo/api/Dockerfile", Provider := "docker" }

/-- A state of the concurrent scan of the four files by `mixedEngine`: all four tasks
are started, the task of the fourth file holds the mutex, and the task of the first
file has its result and waits for the mutex. -/
def contendedState : ConcState :=
  { main := .receiving [],
    tasks :=
      [ { file := repoDockerfile, pc := .waiting (lowResultAt "repo/Dockerfile") },
        { file := chartFile, pc := .scanning },
        { file := terraformFile, pc := .scanning },
        { file := apiDockerfile, pc := .locked (lowResultAt "repo/api/Dockerfile") } ],
    scanResults := [], mu := true, wg := 4 }

/-- The state of the same scan once `wg.Wait` has returned, in the execution in which
the task of the fourth file appended before the task of the first file. -/
def racedState : ConcState :=
  { main := .joined,
    tasks :=
      [ { file := repoDockerfile, pc := .finished },
        { file := chartFile, pc := .finished },
        { file := terraformFile, pc := .finished },
        { file := apiDockerfile, pc := .finished } ],
    scanResults := [lowResultAt "repo/api/Dockerfile", lowResultAt "repo/Dockerfile"],
    mu := false, wg := 0 }

/-- A rule engine whose `Evaluate` fails on every list of resources. -/
def failingRuleEngine : RuleEngine :=
  { Evaluate := fun _ => ([], some "rule evaluation failed") }

/-- A sequential engine over the single file `repo/Dockerfile`, with the docker
analyzer registered, no exporter, and the failing rule engine. -/
def brokenRulesEngine : Engine :=
  { detector := oneFileDetector
    analyzers := fun provider => if provider = "docker" then some dockerAnalyzer else none
    ruleEngine := failingRuleEngine
    config :=
      { Providers := ["docker"], ExcludeDirs := [], Exporter := none,
        SequentialMode := true, MinSeverity := "" } }

/-! # Theorems -/

/-! ## Lemmas on the rule engine -/

theorem getRules_foldl (provider : String) (rules acc : List Rule) :
    rules.foldl
      (fun result rule =>
        if rule.Provider = provider ∨ rule.Provider = "*" then result ++ [rule] else result)
      acc
      = acc ++ rules.filter (fun rule => rule.Provider == provider || rule.Provider == "*") := by
  induction rules generalizing acc with
  | nil => simp
  | cons r rs ih =>
    simp only [List.foldl_cons, ih, List.filter_cons]
    by_cases h : r.Provider = provider ∨ r.Provider = "*"
    · have h2 : (r.Provider == provider || r.Provider == "*") = true := by
        simpa using h
      simp [h, h2]
    · have h2 : (r.Provider == provider || r.Provider == "*") = false := by
        simpa using h
      simp [h, h2]

theorem getRulesForProvider_eq_filter (rules : List Rule) (provider : String) :
    GetRulesForProvider rules provider
      = rules.filter (fun rule => rule.Provider == provider || rule.Provider == "*") := by
  unfold GetRulesForProvider
  rw [getRules_foldl]
  simp

theorem evaluateRule_foldl (resource : Resource) (rules : List Rule) (acc : List Finding) :
    rules.foldl (evaluateRule resource) acc
      = acc ++ (rules.filter (fun rule =>
          (rule.ResourceType == resource.Type_ || rule.ResourceType == "*") &&
          (match rule.Check with
           | some check => check resource
           | none => false))).map (specFinding resource) := by
  induction rules generalizing acc with
  | nil => simp
  | cons r rs ih =>
    rw [List.foldl_cons, ih, List.filter_cons]
    unfold evaluateRule
    by_cases hstar : r.ResourceType = "*"
    · cases hc : r.Check with
      | none => simp [hstar]
      | some check =>
        by_cases hv : check resource = true
        · simp [hstar, hv, specFinding]
        · simp [hstar, hv]
    · by_cases hty : r.ResourceType = resource.Type_
      · cases hc : r.Check with
        | none => simp [hstar, hty]
        | some check =>
          by_cases hv : check resource = true
          · simp [hty, hv, specFinding]
          · simp [hty, hv]
      · simp [hstar, hty]

theorem evaluate_inner (rules : List Rule) (resource : Resource) (acc : List Finding) :
    (GetRulesForProvider rules resource.Provider).foldl (evaluateRule resource) acc
      = acc ++ (rules.filter (specEmits resource)).map (specFinding resource) := by
  rw [evaluateRule_foldl, getRulesForProvider_eq_filter, List.filter_filter]
  congr 2
  apply List.filter_congr
  intro r _
  unfold specEmits
  cases r.Check <;> simp [Bool.and_comm, Bool.and_assoc, Bool.and_left_comm]

theorem evaluate_outer (rules : List Rule) (resources : List Resource) (acc : List Finding) :
    resources.foldl
      (fun findings resource =>
        (GetRulesForProvider rules resource.Provider).foldl (evaluateRule resource) findings)
      acc
      = acc ++ resources.flatMap
          (fun resource => (rules.filter (specEmits resource)).map (specFinding resource)) := by
  induction resources generalizing acc with
  | nil => simp
  | cons r rs ih =>
    rw [List.foldl_cons, ih, evaluate_inner]
    simp [List.flatMap_cons]

/-- C1: for every list of registered rules and every list of resources, `Evaluate`
returns a nil error and exactly this list: the resources in input order, for each
resource the rules in registration order, and for each pair one finding carrying
the resource and the rule's ID, Severity, Title, Description, Remediation and
References, exactly when the rule's provider and resource type each equal the
resource's or are the wildcard and the check is non-nil and returns true. -/
theorem evaluate_exact (rules : List Rule) (resources : List Resource) :
    Evaluate rules resources =
      (resources.flatMap (fun resource =>
          (rules.filter (fun rule =>
              (rule.Provider == resource.Provider || rule.Provider == "*") &&
              (rule.ResourceType == resource.Type_ || rule.ResourceType == "*") &&
              (match rule.Check with
               | some check => check resource
               | none => false))).map
            (fun rule =>
              { RuleID := rule.ID
                Severity := rule.Severity
                Resource := resource
                Title := rule.Title
                Description := rule.Description
                Remediation := rule.Remediation
                References := rule.References })),
        none) := by
  unfold Evaluate
  rw [evaluate_outer]
  rfl

theorem evaluate_single_wildcard (rule : Rule) (check : Resource → Bool)
    (hp : rule.Provider = "*") (ht : rule.ResourceType = "*")
    (hc : rule.Check = some check) (htrue : ∀ r, check r = true)
    (resources : List Resource) :
    (Evaluate [rule] resources).1 = resources.map (fun r => specFinding r rule) := by
  unfold Evaluate
  rw [evaluate_outer]
  have hem : ∀ r : Resource, specEmits r rule = true := by
    intro r
    simp [specEmits, hp, ht, hc, htrue]
  induction resources with
  | nil => simp
  | cons r rs ih =>
    simp only [List.nil_append, List.filter_cons, hem, List.filter_nil, if_true,
      List.map_cons, List.map_nil] at ih
    simp [List.flatMap_cons, hem, ih]

/-- C2: when the engine holds exactly one rule, with provider `"*"`, resource type
`"*"` and a check that returns true on every resource, `Evaluate` on any list of
resources returns a nil error and as many findings as resources, and the finding
at index `i` carries the resource at index `i`. -/
theorem evaluate_wildcard_one_per_resource (rule : Rule) (check : Resource → Bool)
    (hp : rule.Provider = "*") (ht : rule.ResourceType = "*")
    (hc : rule.Check = some check) (htrue : ∀ r, check r = true)
    (resources : List Resource) :
    (Evaluate [rule] resources).2 = none ∧
    (Evaluate [rule] resources).1.length = resources.length ∧
    ∀ i : Nat, ((Evaluate [rule] resources).1[i]?).map Finding.Resource = resources[i]? := by
  refine ⟨rfl, ?_, ?_⟩
  · rw [evaluate_single_wildcard rule check hp ht hc htrue]
    simp
  · intro i
    rw [evaluate_single_wildcard rule check hp ht hc htrue]
    rw [List.getElem?_map]
    cases resources[i]? <;> simp [specFinding]

theorem evaluate_wildcard_one_per_resource_witness :
    (Evaluate [wildcardRule] mixedResources).2 = none ∧
    (Evaluate [wildcardRule] mixedResources).1.length = mixedResources.length ∧
    ∀ i : Nat, ((Evaluate [wildcardRule] mixedResources).1[i]?).map Finding.Resource
      = mixedResources[i]? :=
  evaluate_wildcard_one_per_resource wildcardRule (fun _ => true) rfl rfl rfl
    (fun _ => rfl) mixedResources

/-! ## Severity filtering -/

theorem mapIndex_severityOrder (severity : String) :
    mapIndex severityOrder severity = specRank severity := by
  unfold mapIndex severityOrder specRank SeverityCritical SeverityHigh SeverityMedium
    SeverityLow SeverityInfo
  by_cases h1 : severity = "CRITICAL"
  · subst h1; rfl
  by_cases h2 : severity = "HIGH"
  · subst h2; rfl
  by_cases h3 : severity = "MEDIUM"
  · subst h3; rfl
  by_cases h4 : severity = "LOW"
  · subst h4; rfl
  by_cases h5 : severity = "INFO"
  · subst h5; rfl
  have e1 : (severity == "CRITICAL") = false := by simpa using h1
  have e2 : (severity == "HIGH") = false := by simpa using h2
  have e3 : (severity == "MEDIUM") = false := by simpa using h3
  have e4 : (severity == "LOW") = false := by simpa using h4
  have e5 : (severity == "INFO") = false := by simpa using h5
  simp [List.lookup, h1, h2, h3, h4, h5, e1, e2, e3, e4, e5]

theorem filter_foldl (p : Finding → Prop) [DecidablePred p] (findings acc : List Finding) :
    findings.foldl (fun filtered f => if p f then filtered ++ [f] else filtered) acc
      = acc ++ findings.filter (fun f => decide (p f)) := by
  induction findings generalizing acc with
  | nil => simp
  | cons f fs ih =>
    rw [List.foldl_cons, ih, List.filter_cons]
    by_cases h : p f <;> simp [h]

theorem filterBySeverity_of_rank_pos (minSeverity : String) (findings : List Finding)
    (hpos : 0 < specRank minSeverity) :
    filterBySeverity minSeverity findings
      = findings.filter (fun f => decide (specRank f.Severity ≥ specRank minSeverity)) := by
  have hne : minSeverity ≠ "" := by
    intro h
    subst h
    simp [specRank] at hpos
  unfold filterBySeverity
  simp only [hne, if_false, mapIndex_severityOrder]
  rw [if_neg (by omega)]
  rw [filter_foldl (fun f => specRank f.Severity ≥ specRank minSeverity)]
  simp

theorem filterBySeverity_of_rank_zero (minSeverity : String) (findings : List Finding)
    (hzero : specRank minSeverity = 0) :
    filterBySeverity minSeverity findings = findings := by
  unfold filterBySeverity
  by_cases h : minSeverity = ""
  · simp [h]
  · simp [h, mapIndex_severityOrder, hzero]

theorem specRank_pos_of_mem (threshold : String)
    (h : threshold ∈ ["CRITICAL", "HIGH", "MEDIUM", "LOW", "INFO"]) :
    0 < specRank threshold := by
  simp only [List.mem_cons, List.mem_singleton, List.mem_nil_iff, or_false] at h
  rcases h with h | h | h | h | h <;> subst h <;> decide

/-- C4: for a threshold that is one of CRITICAL, HIGH, MEDIUM, LOW, INFO,
`filterBySeverity` returns exactly the findings whose rank (5, 4, 3, 2, 1, and 0 for
any other severity) is at least the threshold's rank, in their original order; with
threshold HIGH every CRITICAL and HIGH finding of the input is kept and every
MEDIUM, LOW and INFO finding is dropped. -/
theorem filterBySeverity_keeps_rank_ge (threshold : String) (findings : List Finding)
    (h : threshold ∈ ["CRITICAL", "HIGH", "MEDIUM", "LOW", "INFO"]) :
    filterBySeverity threshold findings
        = findings.filter (fun f => decide (specRank f.Severity ≥ specRank threshold)) ∧
    (∀ f ∈ findings, (f.Severity = "CRITICAL" ∨ f.Severity = "HIGH") →
        f ∈ filterBySeverity "HIGH" findings) ∧
    (∀ f : Finding, (f.Severity = "MEDIUM" ∨ f.Severity = "LOW" ∨ f.Severity = "INFO") →
        f ∉ filterBySeverity "HIGH" findings) := by
  refine ⟨filterBySeverity_of_rank_pos threshold findings (specRank_pos_of_mem threshold h),
    ?_, ?_⟩
  · intro f hf hsev
    rw [filterBySeverity_of_rank_pos "HIGH" findings (by decide)]
    rw [List.mem_filter]
    refine ⟨hf, ?_⟩
    rcases hsev with hs | hs <;> rw [hs] <;> decide
  · intro f hsev
    rw [filterBySeverity_of_rank_pos "HIGH" findings (by decide)]
    rw [List.mem_filter]
    rintro ⟨_, hk⟩
    rcases hsev with hs | hs | hs <;> rw [hs] at hk <;> revert hk <;> decide

theorem filterBySeverity_keeps_rank_ge_witness :
    filterBySeverity "HIGH" sampleFindings = [findingOf "R4" "HIGH", findingOf "R5" "CRITICAL"] ∧
    filterBySeverity "HIGH" sampleFindings
        = sampleFindings.filter (fun f => decide (specRank f.Severity ≥ specRank "HIGH")) :=
  ⟨by decide,
   (filterBySeverity_keeps_rank_ge "HIGH" sampleFindings (by decide)).1⟩

/-- C5: when the configured minimum severity is the empty string or any string that
is not one of the five severity names, `filterBySeverity` returns its input list
unchanged. -/
theorem filterBySeverity_unrecognised (minSeverity : String) (findings : List Finding)
    (h : minSeverity = "" ∨ minSeverity ∉ ["CRITICAL", "HIGH", "MEDIUM", "LOW", "INFO"]) :
    filterBySeverity minSeverity findings = findings := by
  apply filterBySeverity_of_rank_zero
  rcases h with h | h
  · subst h; decide
  · simp only [List.mem_cons, List.mem_singleton, List.mem_nil_iff, or_false, not_or] at h
    obtain ⟨h1, h2, h3, h4, h5⟩ := h
    simp [specRank, h1, h2, h3, h4, h5]

theorem filterBySeverity_unrecognised_witness :
    filterBySeverity "" sampleFindings = sampleFindings ∧
    filterBySeverity "high" sampleFindings = sampleFindings ∧
    filterBySeverity "URGENT" sampleFindings = sampleFindings :=
  ⟨filterBySeverity_unrecognised "" sampleFindings (Or.inl rfl),
   filterBySeverity_unrecognised "high" sampleFindings (Or.inr (by decide)),
   filterBySeverity_unrecognised "URGENT" sampleFindings (Or.inr (by decide))⟩

/-! ## The engine and the severity threshold -/

/-- C3 (the code at a failing input): with `MinSeverity = "HIGH"` and a rule of
severity LOW that fires, `Scan` returns the LOW finding in sequential and in
concurrent mode, and an exporter that refuses findings below HIGH is handed it;
`filterBySeverity` would have dropped it. -/
theorem scan_ignores_min_severity :
    (highEngine true none).Scan id "repo" = .ok [lowResult] ∧
    (highEngine false none).Scan id "repo" = .ok [lowResult] ∧
    (highEngine true (some strictExporter)).Scan id "repo"
      = .error "failed to export results: finding below HIGH" ∧
    (highEngine false (some strictExporter)).Scan id "repo"
      = .error "failed to export results: finding below HIGH" ∧
    filterBySeverity "HIGH" lowResult.Findings = [] := by
  refine ⟨by rfl, by rfl, by rfl, by rfl, by decide⟩

/-! ## File matching -/

theorem matchHighConfidence_none (visited : List (String × List FilePattern)) (name : String)
    (providerSet : String → Bool)
    (h : ∀ entry ∈ visited, matchPatterns entry.2 name = false) :
    matchHighConfidence visited name providerSet = none := by
  induction visited with
  | nil => rfl
  | cons entry rest ih =>
    obtain ⟨provider, patterns⟩ := entry
    have h1 : matchPatterns patterns name = false := h (provider, patterns) (by simp)
    have h2 := ih (fun entry he => h entry (List.mem_cons_of_mem _ he))
    simp [matchHighConfidence, h1, h2]

theorem matchHighConfidence_unique (visited : List (String × List FilePattern)) (name : String)
    (providerSet : String → Bool) (p : String)
    (honly : ∀ entry ∈ visited, matchPatterns entry.2 name = true → entry.1 = p)
    (hex : ∃ entry ∈ visited, providerSet entry.1 = true ∧ matchPatterns entry.2 name = true) :
    matchHighConfidence visited name providerSet = some p := by
  induction visited with
  | nil => simp at hex
  | cons entry rest ih =>
    obtain ⟨provider, patterns⟩ := entry
    unfold matchHighConfidence
    by_cases hreq : providerSet provider = true
    · by_cases hm : matchPatterns patterns name = true
      · have hp : provider = p := honly (provider, patterns) (by simp) hm
        subst hp
        simp [hreq, hm]
      · simp only [hreq, Bool.not_true, hm]
        simp only [Bool.false_eq_true, if_false]
        apply ih (fun entry he => honly entry (List.mem_cons_of_mem _ he))
        obtain ⟨entry, he, h1, h2⟩ := hex
        rcases List.mem_cons.mp he with heq | hin
        · subst heq
          exact absurd h2 hm
        · exact ⟨entry, hin, h1, h2⟩
    · have hreq2 : providerSet provider = false := by simpa using hreq
      simp only [hreq2, Bool.not_false, if_true]
      apply ih (fun entry he => honly entry (List.mem_cons_of_mem _ he))
      obtain ⟨entry, he, h1, h2⟩ := hex
      rcases List.mem_cons.mp he with heq | hin
      · subst heq
        simp [hreq2] at h1
      · exact ⟨entry, hin, h1, h2⟩

/-- C6 (the code on the claim's input): for the name `values.yaml`, `matchFile`
reports no match, whatever the order in which the pattern table is visited and
whatever the requested provider set, helm included. -/
theorem matchFile_values_yaml_no_match (visited : List (String × List FilePattern))
    (hperm : visited.Perm HighConfidencePatterns) (path : String)
    (providerSet : String → Bool) :
    matchFile visited path "values.yaml" providerSet = ({ Path := "", Provider := "" }, false) := by
  have hnone : matchHighConfidence visited "values.yaml" providerSet = none := by
    apply matchHighConfidence_none
    have key : ∀ entry ∈ HighConfidencePatterns, matchPatterns entry.2 "values.yaml" = false := by
      decide
    intro entry he
    exact key entry (hperm.mem_iff.mp he)
  unfold matchFile
  rw [hnone]
  have hs : (HasSuffix "values.yaml" ".tf" || HasSuffix "values.yaml" ".tfvars") = false := by
    decide
  simp [hs]

theorem matchFile_values_yaml_no_match_witness :
    HelmValuesPattern.Regex.MatchString "values.yaml" = true ∧
    providerSetOf ["helm", "kubernetes"] "helm" = true ∧
    providerSetOf [] "helm" = true ∧
    matchFile HighConfidencePatterns "chart/values.yaml" "values.yaml"
        (providerSetOf ["helm", "kubernetes"]) = ({ Path := "", Provider := "" }, false) ∧
    matchFile HighConfidencePatterns "chart/values.yaml" "values.yaml"
        (providerSetOf []) = ({ Path := "", Provider := "" }, false) :=
  ⟨by decide, by decide, by decide,
   matchFile_values_yaml_no_match HighConfidencePatterns (List.Perm.refl _) _ _,
   matchFile_values_yaml_no_match HighConfidencePatterns (List.Perm.refl _) _ _⟩

theorem dockerfile_only_docker (name : String)
    (hname : name = "Dockerfile" ∨ name = "Dockerfile.prod") :
    (∀ entry ∈ HighConfidencePatterns, matchPatterns entry.2 name = true →
        entry.1 = ProviderDocker) ∧
    matchPatterns [DockerfilePattern, DockerComposePattern] name = true := by
  rcases hname with h | h <;> subst h <;> decide

/-- C7: with docker among the requested providers, `matchFile` matches `Dockerfile`
and `Dockerfile.prod` and assigns both to docker, in whatever order the pattern
table is visited; for `dockerfile` it reports no match, for every provider set. -/
theorem matchFile_dockerfile (visited : List (String × List FilePattern))
    (hperm : visited.Perm HighConfidencePatterns) (path : String)
    (providerSet : String → Bool) :
    (providerSet "docker" = true →
      matchFile visited path "Dockerfile" providerSet
        = ({ Path := path, Provider := "docker" }, true) ∧
      matchFile visited path "Dockerfile.prod" providerSet
        = ({ Path := path, Provider := "docker" }, true)) ∧
    matchFile visited path "dockerfile" providerSet = ({ Path := "", Provider := "" }, false) := by
  have hfound : ∀ name : String, name = "Dockerfile" ∨ name = "Dockerfile.prod" →
      providerSet "docker" = true →
      matchHighConfidence visited name providerSet = some "docker" := by
    intro name hname hreq
    obtain ⟨honly, hm⟩ := dockerfile_only_docker name hname
    apply matchHighConfidence_unique
    · intro entry he
      exact honly entry (hperm.mem_iff.mp he)
    · refine ⟨(ProviderDocker, [DockerfilePattern, DockerComposePattern]), ?_, hreq, hm⟩
      exact hperm.mem_iff.mpr (by simp [HighConfidencePatterns])
  refine ⟨fun hreq => ⟨?_, ?_⟩, ?_⟩
  · unfold matchFile
    rw [hfound "Dockerfile" (Or.inl rfl) hreq]
  · unfold matchFile
    rw [hfound "Dockerfile.prod" (Or.inr rfl) hreq]
  · have hnone : matchHighConfidence visited "dockerfile" providerSet = none := by
      apply matchHighConfidence_none
      have key : ∀ entry ∈ HighConfidencePatterns,
          matchPatterns entry.2 "dockerfile" = false := by
        decide
      intro entry he
      exact key entry (hperm.mem_iff.mp he)
    unfold matchFile
    rw [hnone]
    have hs : (HasSuffix "dockerfile" ".tf" || HasSuffix "dockerfile" ".tfvars") = false := by
      decide
    simp [hs]

theorem matchFile_dockerfile_witness :
    terraformFirst.Perm HighConfidencePatterns ∧
    providerSetOf ["terraform", "docker"] "docker" = true ∧
    matchFile terraformFirst "app/Dockerfile" "Dockerfile" (providerSetOf ["terraform", "docker"])
      = ({ Path := "app/Dockerfile", Provider := "docker" }, true) ∧
    matchFile terraformFirst "app/Dockerfile" "Dockerfile.prod"
        (providerSetOf ["terraform", "docker"])
      = ({ Path := "app/Dockerfile", Provider := "docker" }, true) ∧
    matchFile terraformFirst "app/Dockerfile" "dockerfile" (providerSetOf ["terraform", "docker"])
      = ({ Path := "", Provider := "" }, false) :=
  have hperm : terraformFirst.Perm HighConfidencePatterns := List.Perm.swap _ _ _
  have h := matchFile_dockerfile terraformFirst hperm "app/Dockerfile"
    (providerSetOf ["terraform", "docker"])
  ⟨hperm, by decide, (h.1 (by decide)).1, (h.1 (by decide)).2, h.2⟩

/-- C8 (the code at the claim's input): for the name `Dockerfile.tf` with docker and
terraform both requested, two orders of visiting the entries of
`HighConfidencePatterns` make `matchFile` assign two different providers. -/
theorem matchFile_depends_on_visit_order :
    HighConfidencePatterns.Perm HighConfidencePatterns ∧
    terraformFirst.Perm HighConfidencePatterns ∧
    matchFile HighConfidencePatterns "Dockerfile.tf" "Dockerfile.tf" dockerAndTerraform
      = ({ Path := "Dockerfile.tf", Provider := "docker" }, true) ∧
    matchFile terraformFirst "Dockerfile.tf" "Dockerfile.tf" dockerAndTerraform
      = ({ Path := "Dockerfile.tf", Provider := "terraform" }, true) :=
  ⟨List.Perm.refl _, List.Perm.swap _ _ _, by decide, by decide⟩

/-! ## The scanner -/

theorem mem_evaluate_resource (rules : List Rule) (resources : List Resource) (f : Finding)
    (hf : f ∈ (Evaluate rules resources).1) : f.Resource ∈ resources := by
  unfold Evaluate at hf
  rw [evaluate_outer] at hf
  simp only [List.nil_append, List.mem_flatMap, List.mem_map, List.mem_filter] at hf
  obtain ⟨resource, hr, rule, _, hfe⟩ := hf
  rw [← hfe]
  exact hr

/-- C10 (amended): with the default rule engine, `ScanFile` fails exactly when
`analyzer.Analyze path` returns an error; it then returns no result and the
analyzer's error itself, unchanged and not wrapped, also when the analyzer returned
resources along with the error.  When `Analyze` returns resources `R` and no error,
`ScanFile` returns the result with `SourceFile = path`,
`Provider = analyzer.Provider`, `Resources = R` and `Findings = Evaluate R`, and
every finding's resource is an element of `R`. -/
theorem scanFile_default (analyzer : Analyzer) (rules : List Rule) (path : String) :
    ((∃ err, ScanFile analyzer (DefaultRuleEngine rules) path = .error err) ↔
        (analyzer.Analyze path).2 ≠ none) ∧
    (∀ partialResources err, analyzer.Analyze path = (partialResources, some err) →
        ScanFile analyzer (DefaultRuleEngine rules) path = .error err) ∧
    (∀ R, analyzer.Analyze path = (R, none) →
        ScanFile analyzer (DefaultRuleEngine rules) path
          = .ok { SourceFile := path
                  Provider := analyzer.Provider
                  Resources := R
                  Findings := (Evaluate rules R).1 } ∧
        ∀ f ∈ (Evaluate rules R).1, f.Resource ∈ R) ∧
    (∀ partialResources err returned,
        analyzer.Analyze path = (partialResources, some err) →
        ScanFile analyzer (DefaultRuleEngine rules) path = .error returned →
        returned = err ∧ wrapsError returned err = false) := by
  have hev : ∀ R, (DefaultRuleEngine rules).Evaluate R = ((Evaluate rules R).1, none) := by
    intro R
    rfl
  refine ⟨?_, ?_, ?_, ?_⟩
  rotate_right
  · intro partialResources err returned hA hret
    unfold ScanFile at hret
    rw [hA] at hret
    simp only [Except.error.injEq] at hret
    subst hret
    exact ⟨rfl, by simp [wrapsError]⟩
  · unfold ScanFile
    rcases hA : analyzer.Analyze path with ⟨R, _ | err⟩
    · simp [hev]
    · simp
  · intro partialResources err hA
    unfold ScanFile
    rw [hA]
  · intro R hA
    refine ⟨?_, fun f hf => mem_evaluate_resource rules R f hf⟩
    unfold ScanFile
    rw [hA]
    simp [hev]

theorem scanFile_default_witness :
    ScanFile failingAnalyzer (DefaultRuleEngine [lowRule]) "repo/Dockerfile"
      = .error "parse error" ∧
    ScanFile dockerAnalyzer (DefaultRuleEngine [lowRule]) "repo/Dockerfile" = .ok lowResult ∧
    (∀ f ∈ (Evaluate [lowRule] [baseResource "repo/Dockerfile"]).1,
        f.Resource ∈ [baseResource "repo/Dockerfile"]) ∧
    wrapsError "parse error" "parse error" = false :=
  have hfail := (scanFile_default failingAnalyzer [lowRule] "repo/Dockerfile").2.1
    [baseResource "repo/Dockerfile"] "parse error" rfl
  have hok := (scanFile_default dockerAnalyzer [lowRule] "repo/Dockerfile").2.2.1
    [baseResource "repo/Dockerfile"] rfl
  have hraw := (scanFile_default failingAnalyzer [lowRule] "repo/Dockerfile").2.2.2
    [baseResource "repo/Dockerfile"] "parse error" "parse error" rfl rfl
  ⟨hfail, hok.1, hok.2, hraw.2⟩

/-- C10 (the claim as stated fails): the analyzer fails on `repo/Dockerfile` with the
error `parse error`; `ScanFile` returns that very error, and the error it returns
does not wrap it, whereas `failed to export results: parse error` would. -/
theorem scanFile_error_not_wrapped :
    failingAnalyzer.Analyze "repo/Dockerfile"
      = ([baseResource "repo/Dockerfile"], some "parse error") ∧
    ScanFile failingAnalyzer (DefaultRuleEngine [lowRule]) "repo/Dockerfile"
      = .error "parse error" ∧
    wrapsError "failed to export results: parse error" "parse error" = true ∧
    ¬ ∃ returned,
        ScanFile failingAnalyzer (DefaultRuleEngine [lowRule]) "repo/Dockerfile"
          = .error returned ∧
        wrapsError returned "parse error" = true := by
  refine ⟨rfl, rfl, by decide, ?_⟩
  rintro ⟨returned, hret, hwrap⟩
  have hrun : ScanFile failingAnalyzer (DefaultRuleEngine [lowRule]) "repo/Dockerfile"
      = .error "parse error" := rfl
  rw [hrun] at hret
  simp only [Except.error.injEq] at hret
  subst hret
  revert hwrap
  decide

/-! ## The directory walk -/

theorem matchFile_path (visited : List (String × List FilePattern)) (path name : String)
    (providerSet : String → Bool) (f : File)
    (h : matchFile visited path name providerSet = (f, true)) : f.Path = path := by
  unfold matchFile at h
  split at h
  · simp only [Prod.mk.injEq, and_true] at h
    rw [← h]
  · split at h
    · split at h
      · simp only [Prod.mk.injEq, and_true] at h
        rw [← h]
      · simp at h
    · simp at h

theorem detectWalkFn_dir (visit : String → List (String × List FilePattern))
    (excludeSet providerSet : String → Bool) (path name : String) (st : List File) :
    detectWalkFn visit excludeSet providerSet path (.ok ⟨name, true⟩) st
      = if shouldExclude name excludeSet then (st, some .skipDir) else (st, none) := by
  simp [detectWalkFn]

theorem detectWalkFn_failed (visit : String → List (String × List FilePattern))
    (excludeSet providerSet : String → Bool) (path : String) (info : Option FileInfo)
    (err : Err) (st : List File) :
    detectWalkFn visit excludeSet providerSet path (.failed info err) st
      = (st, some (.other err)) := by
  simp [detectWalkFn]

theorem detectWalkFn_file (visit : String → List (String × List FilePattern))
    (excludeSet providerSet : String → Bool) (path name : String) (st : List File) :
    (∃ f, matchFile (visit path) path name providerSet = (f, true) ∧
        detectWalkFn visit excludeSet providerSet path (.ok ⟨name, false⟩) st
          = (st ++ [f], none)) ∨
    detectWalkFn visit excludeSet providerSet path (.ok ⟨name, false⟩) st = (st, none) := by
  simp only [detectWalkFn, Bool.false_eq_true, if_false]
  rcases hm : matchFile (visit path) path name providerSet with ⟨f, ok⟩
  cases ok
  · right
    rfl
  · left
    exact ⟨f, rfl, rfl⟩

mutual
theorem walk_yields (join : String → String → String)
    (visit : String → List (String × List FilePattern))
    (excludeSet providerSet : String → Bool) (path : String) :
    ∀ (node : FsNode) (st : List File),
      ∃ new, (walk join (detectWalkFn visit excludeSet providerSet) path node st).1 = st ++ new ∧
        ∀ f ∈ new, YieldedFrom join visit excludeSet providerSet node path f
  | .file name, st => by
    unfold walk
    rcases detectWalkFn_file visit excludeSet providerSet path name st with ⟨f, hm, h⟩ | h
    · refine ⟨[f], by rw [h], ?_⟩
      intro g hg
      rw [List.mem_singleton] at hg
      subst hg
      have hp := matchFile_path _ _ _ _ _ hm
      refine ⟨[], name, ?_, by simp, ?_⟩
      · rw [hp]
        exact FileAt.atFile name path
      · rw [hp]
        exact hm
    · exact ⟨[], by rw [h]; simp, by simp⟩
  | .dir name children, st => by
    unfold walk
    rw [detectWalkFn_dir]
    by_cases hex : shouldExclude name excludeSet = true
    · exact ⟨[], by simp [hex], by simp⟩
    · have hex2 : shouldExclude name excludeSet = false := by simpa using hex
      obtain ⟨new, hnew, hall⟩ :=
        walkChildren_yields join visit excludeSet providerSet path children st
      refine ⟨new, by simp [hex2, hnew], ?_⟩
      intro f hf
      obtain ⟨child, hc, ancestors, fileName, hat, hclean, hm⟩ := hall f hf
      refine ⟨name :: ancestors, fileName, ?_, ?_, hm⟩
      · exact FileAt.inDir name children path child ancestors f.Path fileName hc hat
      · intro d hd
        rcases List.mem_cons.mp hd with h | h
        · rw [h]; exact hex2
        · exact hclean d h
  | .unreadableDir name err, st => by
    unfold walk
    rw [detectWalkFn_failed]
    exact ⟨[], by simp, by simp⟩
  | .noStat name err, st => by
    unfold walk
    rw [detectWalkFn_failed]
    exact ⟨[], by simp, by simp⟩
theorem walkChildren_yields (join : String → String → String)
    (visit : String → List (String × List FilePattern))
    (excludeSet providerSet : String → Bool) (path : String) :
    ∀ (children : List FsNode) (st : List File),
      ∃ new,
        (walkChildren join (detectWalkFn visit excludeSet providerSet) path children st).1
          = st ++ new ∧
        ∀ f ∈ new, ∃ child ∈ children,
          YieldedFrom join visit excludeSet providerSet child (join path child.name) f
  | [], st => by
    unfold walkChildren
    exact ⟨[], by simp, by simp⟩
  | child :: rest, st => by
    have hrest := walkChildren_yields join visit excludeSet providerSet path rest
    have hchild := walk_yields join visit excludeSet providerSet (join path child.name) child st
    have lift : ∀ (st1 : List File) (new1 : List File), st1 = st ++ new1 →
        (∀ f ∈ new1, YieldedFrom join visit excludeSet providerSet child
          (join path child.name) f) →
        ∃ new,
          (walkChildren join (detectWalkFn visit excludeSet providerSet) path rest st1).1
            = st ++ new ∧
          ∀ f ∈ new, ∃ c ∈ child :: rest,
            YieldedFrom join visit excludeSet providerSet c (join path c.name) f := by
      intro st1 new1 hst1 hall1
      obtain ⟨new2, h2, hall2⟩ := hrest st1
      refine ⟨new1 ++ new2, by rw [h2, hst1, List.append_assoc], ?_⟩
      intro f hf
      rcases List.mem_append.mp hf with h | h
      · exact ⟨child, by simp, hall1 f h⟩
      · obtain ⟨c, hc, hy⟩ := hall2 f h
        exact ⟨c, List.mem_cons_of_mem _ hc, hy⟩
    have stop : ∀ (st1 : List File) (new1 : List File),
        st1 = st ++ new1 →
        (∀ f ∈ new1, YieldedFrom join visit excludeSet providerSet child
          (join path child.name) f) →
        ∃ new, st1 = st ++ new ∧
          ∀ f ∈ new, ∃ c ∈ child :: rest,
            YieldedFrom join visit excludeSet providerSet c (join path c.name) f := by
      intro st1 new1 hst1 hall1
      exact ⟨new1, hst1, fun f hf => ⟨child, by simp, hall1 f hf⟩⟩
    obtain ⟨new1, h1, hall1⟩ := hchild
    cases child with
    | noStat name err =>
      unfold walkChildren
      simp only [detectWalkFn_failed]
      exact ⟨[], by simp, by simp⟩
    | file name =>
      unfold walkChildren
      simp only
      rcases hw : walk join (detectWalkFn visit excludeSet providerSet)
        (join path (FsNode.file name).name) (FsNode.file name) st with ⟨st1, r⟩
      rw [hw] at h1
      simp only at h1
      rcases r with _ | _ | e
      · exact lift st1 new1 h1 hall1
      · simp only [FsNode.isDir, Bool.false_eq_true, if_false]
        exact stop st1 new1 h1 hall1
      · exact stop st1 new1 h1 hall1
    | dir name children =>
      unfold walkChildren
      simp only
      rcases hw : walk join (detectWalkFn visit excludeSet providerSet)
        (join path (FsNode.dir name children).name) (FsNode.dir name children) st with ⟨st1, r⟩
      rw [hw] at h1
      simp only at h1
      rcases r with _ | _ | e
      · exact lift st1 new1 h1 hall1
      · simp only [FsNode.isDir, if_true]
        exact lift st1 new1 h1 hall1
      · exact stop st1 new1 h1 hall1
    | unreadableDir name err =>
      unfold walkChildren
      simp only
      rcases hw : walk join (detectWalkFn visit excludeSet providerSet)
        (join path (FsNode.unreadableDir name err).name) (FsNode.unreadableDir name err) st
        with ⟨st1, r⟩
      rw [hw] at h1
      simp only at h1
      rcases r with _ | _ | e
      · exact lift st1 new1 h1 hall1
      · simp only [FsNode.isDir, if_true]
        exact lift st1 new1 h1 hall1
      · exact stop st1 new1 h1 hall1
end

mutual
theorem walk_prune (join : String → String → String)
    (visit : String → List (String × List FilePattern))
    (excluded excludeSet providerSet : String → Bool)
    (hexcl : ∀ name, excluded name = shouldExclude name excludeSet) :
    ∀ (node : FsNode) (path : String) (st : List File),
      walk join (detectWalkFn visit excludeSet providerSet) path
          (pruneExcluded excluded node) st
        = walk join (detectWalkFn visit excludeSet providerSet) path node st
  | .file name, path, st => by
    unfold pruneExcluded
    rfl
  | .unreadableDir name err, path, st => by
    unfold pruneExcluded
    rfl
  | .noStat name err, path, st => by
    unfold pruneExcluded
    rfl
  | .dir name children, path, st => by
    unfold pruneExcluded
    rw [hexcl name]
    by_cases hex : shouldExclude name excludeSet = true
    · rw [if_pos hex]
      unfold walk
      simp [detectWalkFn_dir, hex]
    · rw [if_neg hex]
      unfold walk
      have hex2 : shouldExclude name excludeSet = false := by simpa using hex
      simp only [detectWalkFn_dir, hex2, Bool.false_eq_true, if_false]
      exact walkChildren_prune join visit excluded excludeSet providerSet hexcl children path st
theorem walkChildren_prune (join : String → String → String)
    (visit : String → List (String × List FilePattern))
    (excluded excludeSet providerSet : String → Bool)
    (hexcl : ∀ name, excluded name = shouldExclude name excludeSet) :
    ∀ (children : List FsNode) (path : String) (st : List File),
      walkChildren join (detectWalkFn visit excludeSet providerSet) path
          (pruneChildren excluded children) st
        = walkChildren join (detectWalkFn visit excludeSet providerSet) path children st
  | [], path, st => by
    unfold pruneChildren
    rfl
  | child :: rest, path, st => by
    have hrest := walkChildren_prune join visit excluded excludeSet providerSet hexcl rest path
    have hchild := walk_prune join visit excluded excludeSet providerSet hexcl child
      (join path child.name) st
    unfold pruneChildren
    cases child with
    | file name =>
      unfold pruneExcluded
      unfold walkChildren
      simp only [hrest]
    | unreadableDir name err =>
      unfold pruneExcluded
      unfold walkChildren
      simp only [hrest]
    | noStat name err =>
      unfold pruneExcluded
      unfold walkChildren
      simp only [hrest]
    | dir name children =>
      unfold pruneExcluded at hchild ⊢
      rw [hexcl name] at hchild ⊢
      by_cases hex : shouldExclude name excludeSet = true
      · rw [if_pos hex] at hchild ⊢
        unfold walkChildren
        simp only [FsNode.name, FsNode.isDir] at hchild ⊢
        simp only [hchild, hrest]
      · rw [if_neg hex] at hchild ⊢
        unfold walkChildren
        simp only [FsNode.name, FsNode.isDir] at hchild ⊢
        simp only [hchild, hrest]
end

theorem shouldExclude_false_iff (d : String) (excludeDirs : List String) :
    shouldExclude d (excludeSetOf excludeDirs) = false ↔
      d ∉ excludeDirs ∧
      d ∉ [".git", ".terraform", "node_modules", "vendor", ".venv", "__pycache__"] := by
  unfold shouldExclude excludeSetOf defaultExcludes
  by_cases hd : d ∈ [".git", ".terraform", "node_modules", "vendor", ".venv", "__pycache__"]
  · have hany : [".git", ".terraform", "node_modules", "vendor", ".venv", "__pycache__"].any
        (fun exclude => d == exclude) = true := by
      rw [List.any_eq_true]
      exact ⟨d, hd, by simp⟩
    rw [hany]
    simp [hd]
  · have hany : [".git", ".terraform", "node_modules", "vendor", ".venv", "__pycache__"].any
        (fun exclude => d == exclude) = false := by
      rw [Bool.eq_false_iff]
      intro h
      rw [List.any_eq_true] at h
      obtain ⟨x, hx, hxe⟩ := h
      have : d = x := by simpa using hxe
      exact hd (this ▸ hx)
    rw [hany]
    simp [hd]

theorem shouldExclude_eq_literal (d : String) (excludeDirs : List String) :
    decide (d ∈ excludeDirs ∨
        d ∈ [".git", ".terraform", "node_modules", "vendor", ".venv", "__pycache__"])
      = shouldExclude d (excludeSetOf excludeDirs) := by
  cases hs : shouldExclude d (excludeSetOf excludeDirs) with
  | false =>
    have h := (shouldExclude_false_iff d excludeDirs).mp hs
    simp only [decide_eq_false_iff_not, not_or]
    exact h
  | true =>
    have h : ¬ (d ∉ excludeDirs ∧
        d ∉ [".git", ".terraform", "node_modules", "vendor", ".venv", "__pycache__"]) := by
      intro hn
      have := (shouldExclude_false_iff d excludeDirs).mpr hn
      rw [hs] at this
      exact Bool.noConfusion this
    simp only [decide_eq_true_eq]
    by_contra hcon
    exact h (not_or.mp hcon)

theorem detectFiles_fst_sub (join : String → String → String)
    (visit : String → List (String × List FilePattern)) (fs : FsNode) (root : String)
    (excludeDirs providers : List String) (f : File)
    (hf : f ∈ (DetectFiles join visit fs root excludeDirs providers).1) :
    f ∈ (walk join (detectWalkFn visit (excludeSetOf excludeDirs) (providerSetOf providers))
      root fs []).1 := by
  unfold DetectFiles Walk at hf
  rcases hw : walk join (detectWalkFn visit (excludeSetOf excludeDirs)
    (providerSetOf providers)) root fs [] with ⟨st1, r⟩
  rw [hw] at hf
  rcases r with _ | _ | e
  · simpa using hf
  · simpa using hf
  · simp at hf

/-- C9: every file that `DetectFiles` yields is what `matchFile` returns for a
regular file of the tree, reached from the root through directories none of whose
names (the root's included) is in the exclusion list or is one of `.git`,
`.terraform`, `node_modules`, `vendor`, `.venv`, `__pycache__`; and the result is
the same as on the tree with all entries removed of every directory whose name is in
the exclusion list or is one of these six, so nothing inside such a directory is
yielded, whatever its name. -/
theorem detectFiles_prunes_excluded (join : String → String → String)
    (visit : String → List (String × List FilePattern)) (fs : FsNode) (root : String)
    (excludeDirs providers : List String) :
    (∀ f ∈ (DetectFiles join visit fs root excludeDirs providers).1,
      ∃ ancestors fileName,
        FileAt join fs root ancestors f.Path fileName ∧
        (∀ d ∈ ancestors, d ∉ excludeDirs ∧
          d ∉ [".git", ".terraform", "node_modules", "vendor", ".venv", "__pycache__"]) ∧
        matchFile (visit f.Path) f.Path fileName (providerSetOf providers) = (f, true)) ∧
    DetectFiles join visit
        (pruneExcluded
          (fun d => decide (d ∈ excludeDirs ∨
            d ∈ [".git", ".terraform", "node_modules", "vendor", ".venv", "__pycache__"]))
          fs)
        root excludeDirs providers
      = DetectFiles join visit fs root excludeDirs providers := by
  constructor
  · intro f hf
    have hf2 := detectFiles_fst_sub join visit fs root excludeDirs providers f hf
    obtain ⟨new, hnew, hall⟩ := walk_yields join visit (excludeSetOf excludeDirs)
      (providerSetOf providers) root fs []
    rw [hnew, List.nil_append] at hf2
    obtain ⟨ancestors, fileName, hat, hclean, hm⟩ := hall f hf2
    exact ⟨ancestors, fileName, hat,
      fun d hd => (shouldExclude_false_iff d excludeDirs).mp (hclean d hd), hm⟩
  · unfold DetectFiles Walk
    rw [walk_prune join visit _ (excludeSetOf excludeDirs) (providerSetOf providers)
      (fun name => shouldExclude_eq_literal name excludeDirs)]

/-- The walk on the sample repository, with `build` excluded by the caller: only the
`Dockerfile` and `infra/main.tf` are yielded, and the entry of `vendor` on which
`Lstat` fails is never reached. -/
theorem detectFiles_sampleTree :
    DetectFiles slashJoin (fun _ => HighConfidencePatterns) sampleTree "repo" ["build"] []
      = ([⟨"repo/Dockerfile", "docker"⟩, ⟨"repo/infra/main.tf", "terraform"⟩], none) := by
  decide

/-! ## The sequential scan -/

theorem scanFile_some (e : Engine) (file : File) (result : ScanResult)
    (h : scanResultOf e file = some result) : e.scanFile file = .ok result := by
  unfold scanResultOf at h
  unfold Engine.scanFile
  cases hA : e.analyzers file.Provider with
  | none => simp [hA] at h
  | some analyzer =>
    rw [hA] at h
    simp only at h ⊢
    unfold ScanFile
    rcases hAn : analyzer.Analyze file.Path with ⟨R, _ | err⟩
    · rw [hAn] at h
      simp only at h ⊢
      rcases hE : e.ruleEngine.Evaluate R with ⟨findings, _ | err⟩
      · rw [hE] at h
        simp only [Option.some.injEq] at h ⊢
        rw [h]
      · rw [hE] at h
        simp at h
    · rw [hAn] at h
      simp at h

theorem scanFile_none (e : Engine) (file : File) (h : scanResultOf e file = none) :
    ∃ err, e.scanFile file = .error err := by
  unfold scanResultOf at h
  unfold Engine.scanFile
  cases hA : e.analyzers file.Provider with
  | none => exact ⟨_, rfl⟩
  | some analyzer =>
    rw [hA] at h
    simp only at h ⊢
    unfold ScanFile
    rcases hAn : analyzer.Analyze file.Path with ⟨R, _ | err⟩
    · rw [hAn] at h
      simp only at h ⊢
      rcases hE : e.ruleEngine.Evaluate R with ⟨findings, _ | err⟩
      · rw [hE] at h
        simp at h
      · exact ⟨err, rfl⟩
    · exact ⟨err, rfl⟩

theorem scanAll_eq_filterMap (e : Engine) (files : List File) (acc : List ScanResult) :
    e.scanAll files acc = acc ++ files.filterMap (scanResultOf e) := by
  unfold Engine.scanAll
  induction files generalizing acc with
  | nil => simp
  | cons file rest ih =>
    rw [List.foldl_cons, ih, List.filterMap_cons]
    cases hs : scanResultOf e file with
    | none =>
      obtain ⟨err, herr⟩ := scanFile_none e file hs
      rw [herr]
    | some result =>
      rw [scanFile_some e file result hs]
      simp

theorem scanResultOf_eq_specResultOf (e : Engine)
    (hrule : ∀ R, (e.ruleEngine.Evaluate R).2 = none) (file : File) :
    scanResultOf e file = specResultOf e file := by
  unfold scanResultOf specResultOf
  cases e.analyzers file.Provider with
  | none => rfl
  | some analyzer =>
    simp only
    rcases analyzer.Analyze file.Path with ⟨R, _ | err⟩
    · simp only
      have h2 := hrule R
      rcases hE : e.ruleEngine.Evaluate R with ⟨findings, err⟩
      rw [hE] at h2
      simp only at h2
      subst h2
      rfl
    · rfl

/-- C11 (amended): in sequential mode, when discovery returns the list `files` and
the exporter (if one is configured) does not fail, `Scan` succeeds and returns, in
discovery order, exactly one result for each file whose provider has a registered
analyzer, whose analyzer succeeds and on whose resources the rule engine returns no
error, and nothing for any other file.  When the rule engine never returns an error,
as the default rule engine never does, these are the files whose provider has a
registered analyzer and whose analyzer succeeds. -/
theorem scan_sequential_skips_failures (e : Engine)
    (sched : List File → List File) (root : String) (files : List File)
    (hseq : e.config.SequentialMode = true)
    (hdet : e.detector.DetectFiles root e.config.ExcludeDirs e.config.Providers
      = (files, none))
    (hexp : ∀ exporter, e.config.Exporter = some exporter →
      exporter.Export (files.filterMap (scanResultOf e)) = none) :
    e.Scan sched root = .ok (files.filterMap (scanResultOf e)) ∧
    ((∀ R, (e.ruleEngine.Evaluate R).2 = none) →
      e.Scan sched root = .ok (files.filterMap (specResultOf e))) ∧
    (∀ rules, e.ruleEngine = DefaultRuleEngine rules →
      e.Scan sched root = .ok (files.filterMap (specResultOf e))) := by
  have hscan : e.Scan sched root = .ok (files.filterMap (scanResultOf e)) := by
    unfold Engine.Scan
    rw [if_pos hseq]
    unfold Engine.scanSequential
    rw [hdet]
    simp only
    rw [scanAll_eq_filterMap e, List.nil_append]
    unfold Engine.exportResults
    cases hex : e.config.Exporter with
    | none => rfl
    | some exporter =>
      simp only
      rw [hexp exporter hex]
  have hsame : (∀ R, (e.ruleEngine.Evaluate R).2 = none) →
      e.Scan sched root = .ok (files.filterMap (specResultOf e)) := by
    intro hrule
    rw [hscan]
    congr 1
    apply List.filterMap_congr
    intro file _
    exact scanResultOf_eq_specResultOf e hrule file
  refine ⟨hscan, hsame, ?_⟩
  intro rules hrules
  apply hsame
  intro R
  rw [hrules]
  rfl

theorem scan_sequential_skips_failures_witness :
    fourFiles.filterMap (scanResultOf (mixedEngine true))
      = [lowResultAt "repo/Dockerfile", lowResultAt "repo/api/Dockerfile"] ∧
    (mixedEngine true).Scan id "repo"
      = .ok (fourFiles.filterMap (scanResultOf (mixedEngine true))) ∧
    (mixedEngine true).Scan id "repo"
      = .ok (fourFiles.filterMap (specResultOf (mixedEngine true))) ∧
    brokenRulesEngine.Scan id "repo"
      = .ok ([repoDockerfile].filterMap (scanResultOf brokenRulesEngine)) :=
  have h := scan_sequential_skips_failures (mixedEngine true) id "repo" fourFiles rfl rfl
    (fun _ h => by simp [mixedEngine] at h)
  have hb := scan_sequential_skips_failures brokenRulesEngine id "repo" [repoDockerfile]
    rfl rfl (fun _ h => by simp [brokenRulesEngine] at h)
  ⟨by decide, h.1, h.2.2 [lowRule] rfl, hb.1⟩

/-- C11 (the claim as stated fails): the provider of `repo/Dockerfile` has a
registered analyzer and the analyzer succeeds, so the claim expects one result for
it; with a rule engine whose `Evaluate` fails, the sequential `Scan` succeeds and
returns no result at all. -/
theorem scan_sequential_rule_engine_failure :
    brokenRulesEngine.config.SequentialMode = true ∧
    brokenRulesEngine.config.Exporter.isNone = true ∧
    brokenRulesEngine.detector.DetectFiles "repo" brokenRulesEngine.config.ExcludeDirs
        brokenRulesEngine.config.Providers = ([repoDockerfile], none) ∧
    (brokenRulesEngine.analyzers repoDockerfile.Provider).isSome = true ∧
    dockerAnalyzer.Analyze repoDockerfile.Path = ([baseResource "repo/Dockerfile"], none) ∧
    ([repoDockerfile].filterMap (specResultOf brokenRulesEngine)).length = 1 ∧
    brokenRulesEngine.Scan id "repo" = .ok [] ∧
    brokenRulesEngine.Scan id "repo"
      ≠ .ok ([repoDockerfile].filterMap (specResultOf brokenRulesEngine)) := by
  refine ⟨rfl, rfl, rfl, rfl, rfl, by decide, rfl, ?_⟩
  intro h
  have hrun : brokenRulesEngine.Scan id "repo" = .ok [] := rfl
  rw [hrun] at h
  simp only [Except.ok.injEq] at h
  revert h
  decide

/-! ## The JSON exporter -/

/-- The counters after the findings `fs` of the file `sourceFile` have been added to
the counters `st`, written without the loop. -/
theorem exportFinding_foldl (sourceFile : String) (fs : List Finding) (st : ExportCounts) :
    fs.foldl (exportFinding sourceFile) st =
      { findings := st.findings ++ fs.map (fun f => { finding := f, file := sourceFile })
        criticalCount := st.criticalCount + fs.countP (fun f => decide (f.Severity = "CRITICAL"))
        highCount := st.highCount + fs.countP (fun f => decide (f.Severity = "HIGH"))
        mediumCount := st.mediumCount + fs.countP (fun f => decide (f.Severity = "MEDIUM"))
        lowCount := st.lowCount + fs.countP (fun f => decide (f.Severity = "LOW")) } := by
  induction fs generalizing st with
  | nil => simp
  | cons f rest ih =>
    rw [List.foldl_cons, ih]
    unfold exportFinding SeverityCritical SeverityHigh SeverityMedium SeverityLow
    by_cases h1 : f.Severity = "CRITICAL"
    · simp [h1, List.countP_cons, Nat.add_assoc, Nat.add_comm]
    by_cases h2 : f.Severity = "HIGH"
    · simp [h2, List.countP_cons, Nat.add_assoc, Nat.add_comm]
    by_cases h3 : f.Severity = "MEDIUM"
    · simp [h3, List.countP_cons, Nat.add_assoc, Nat.add_comm]
    by_cases h4 : f.Severity = "LOW"
    · simp [h4, List.countP_cons, Nat.add_assoc, Nat.add_comm]
    simp [h1, h2, h3, h4, List.countP_cons]

theorem exportLoop_foldl (results : List ScanResult) (st : ExportCounts) :
    results.foldl
        (fun st result => result.Findings.foldl (exportFinding result.SourceFile) st) st =
      { findings := st.findings ++ results.flatMap (fun r =>
          r.Findings.map (fun f => { finding := f, file := r.SourceFile }))
        criticalCount := st.criticalCount +
          (results.flatMap (fun r => r.Findings)).countP
            (fun f => decide (f.Severity = "CRITICAL"))
        highCount := st.highCount +
          (results.flatMap (fun r => r.Findings)).countP (fun f => decide (f.Severity = "HIGH"))
        mediumCount := st.mediumCount +
          (results.flatMap (fun r => r.Findings)).countP
            (fun f => decide (f.Severity = "MEDIUM"))
        lowCount := st.lowCount +
          (results.flatMap (fun r => r.Findings)).countP
            (fun f => decide (f.Severity = "LOW")) } := by
  induction results generalizing st with
  | nil => simp
  | cons r rest ih =>
    rw [List.foldl_cons, ih, exportFinding_foldl]
    simp [List.flatMap_cons, List.countP_append, Nat.add_assoc]

theorem exportLoop_eq (results : List ScanResult) :
    exportLoop results =
      { findings := results.flatMap (fun r =>
          r.Findings.map (fun f => { finding := f, file := r.SourceFile }))
        criticalCount := (results.flatMap (fun r => r.Findings)).countP
          (fun f => decide (f.Severity = "CRITICAL"))
        highCount := (results.flatMap (fun r => r.Findings)).countP
          (fun f => decide (f.Severity = "HIGH"))
        mediumCount := (results.flatMap (fun r => r.Findings)).countP
          (fun f => decide (f.Severity = "MEDIUM"))
        lowCount := (results.flatMap (fun r => r.Findings)).countP
          (fun f => decide (f.Severity = "LOW")) } := by
  unfold exportLoop
  rw [exportLoop_foldl]
  simp

theorem length_flatMap_findings (results : List ScanResult) :
    (results.flatMap (fun r =>
        r.Findings.map (fun f => ({ finding := f, file := r.SourceFile } : FindingWithFile)))).length
      = (results.map (fun r => r.Findings.length)).sum := by
  induction results with
  | nil => rfl
  | cons r rest ih => simp [List.flatMap_cons, ih]

/-- C12: for every list of results, the exported `findings` list pairs each finding
with the `SourceFile` of its result, in order; the summary has exactly the keys
`Total Findings`, `Critical`, `High`, `Medium` and `Low`; `Total Findings` is the
number of findings over all results and the length of the exported list; the other
four are the numbers of findings of severity CRITICAL, HIGH, MEDIUM and LOW, so an
INFO finding is counted in the total only.  For two results holding one CRITICAL
finding the summary is total 1, critical 1, high 0, medium 0, low 0.  When the
output file can be created, this output is what `Export` hands to the encoder. -/
theorem export_summary_counts (results : List ScanResult)
    (encode : ExportOutput → Option Err) (outputFile : String) :
    JSONExporter.Export (fun _ => none) encode outputFile results
        = (encode (exportOutput results)).map
            (fun err => "failed to encode results to JSON: " ++ err) ∧
    (exportOutput results).findings
        = results.flatMap (fun r =>
            r.Findings.map (fun f => { finding := f, file := r.SourceFile })) ∧
    (exportOutput results).summary.map Prod.fst
        = ["Total Findings", "Critical", "High", "Medium", "Low"] ∧
    mapIndex (exportOutput results).summary "Total Findings"
        = (results.map (fun r => r.Findings.length)).sum ∧
    mapIndex (exportOutput results).summary "Total Findings"
        = (exportOutput results).findings.length ∧
    mapIndex (exportOutput results).summary "Critical"
        = (results.flatMap (fun r => r.Findings)).countP
            (fun f => decide (f.Severity = "CRITICAL")) ∧
    mapIndex (exportOutput results).summary "High"
        = (results.flatMap (fun r => r.Findings)).countP
            (fun f => decide (f.Severity = "HIGH")) ∧
    mapIndex (exportOutput results).summary "Medium"
        = (results.flatMap (fun r => r.Findings)).countP
            (fun f => decide (f.Severity = "MEDIUM")) ∧
    mapIndex (exportOutput results).summary "Low"
        = (results.flatMap (fun r => r.Findings)).countP
            (fun f => decide (f.Severity = "LOW")) ∧
    (exportOutput scenarioResults).summary
        = [("Total Findings", 1), ("Critical", 1), ("High", 0), ("Medium", 0), ("Low", 0)] ∧
    (exportOutput [lowResultAt "a", { lowResultAt "b" with Findings := [findingOf "R1" "INFO"] }]).summary
        = [("Total Findings", 2), ("Critical", 0), ("High", 0), ("Medium", 0), ("Low", 1)] := by
  have hout : exportOutput results =
      { summary :=
          [ ("Total Findings", (exportLoop results).findings.length),
            ("Critical", (exportLoop results).criticalCount),
            ("High", (exportLoop results).highCount),
            ("Medium", (exportLoop results).mediumCount),
            ("Low", (exportLoop results).lowCount) ]
        findings := (exportLoop results).findings } := rfl
  have hexport : JSONExporter.Export (fun _ => none) encode outputFile results
      = (encode (exportOutput results)).map
          (fun err => "failed to encode results to JSON: " ++ err) := by
    unfold JSONExporter.Export
    cases encode (exportOutput results) <;> rfl
  refine ⟨hexport, ?_⟩
  rw [hout, exportLoop_eq]
  refine ⟨rfl, rfl, ?_, rfl, rfl, rfl, rfl, rfl, by decide, by decide⟩
  rw [← length_flatMap_findings]
  rfl

/-! ## The providers that `matchFile` can assign -/

theorem matchHighConfidence_some (visited : List (String × List FilePattern)) (name : String)
    (providerSet : String → Bool) (p : String)
    (h : matchHighConfidence visited name providerSet = some p) :
    providerSet p = true ∧ ∃ patterns, (p, patterns) ∈ visited := by
  induction visited with
  | nil => simp [matchHighConfidence] at h
  | cons entry rest ih =>
    obtain ⟨provider, patterns⟩ := entry
    unfold matchHighConfidence at h
    by_cases hreq : providerSet provider = true
    · by_cases hm : matchPatterns patterns name = true
      · simp only [hreq, Bool.not_true, Bool.false_eq_true, if_false, hm, if_true,
          Option.some.injEq] at h
        subst h
        exact ⟨hreq, patterns, by simp⟩
      · simp only [hreq, Bool.not_true, Bool.false_eq_true, if_false, hm] at h
        obtain ⟨h1, pats, h2⟩ := ih h
        exact ⟨h1, pats, List.mem_cons_of_mem _ h2⟩
    · have hreq2 : providerSet provider = false := by simpa using hreq
      simp only [hreq2, Bool.not_false, if_true] at h
      obtain ⟨h1, pats, h2⟩ := ih h
      exact ⟨h1, pats, List.mem_cons_of_mem _ h2⟩

theorem highConfidence_providers (p : String) (patterns : List FilePattern)
    (h : (p, patterns) ∈ HighConfidencePatterns) : p ∈ ["docker", "terraform", "helm"] := by
  simp only [HighConfidencePatterns, List.mem_cons, Prod.mk.injEq, List.mem_singleton,
    List.mem_nil_iff, or_false] at h
  rcases h with ⟨h, _⟩ | ⟨h, _⟩ | ⟨h, _⟩ <;> subst h <;> decide

theorem matchFile_match_cases (visited : List (String × List FilePattern))
    (hperm : visited.Perm HighConfidencePatterns) (path name : String)
    (providerSet : String → Bool)
    (hmatch : (matchFile visited path name providerSet).2 = true) :
    (matchFile visited path name providerSet).1.Path = path ∧
    providerSet (matchFile visited path name providerSet).1.Provider = true ∧
    (matchFile visited path name providerSet).1.Provider ∈ ["docker", "terraform", "helm"] := by
  unfold matchFile at hmatch ⊢
  cases hh : matchHighConfidence visited name providerSet with
  | some p =>
    obtain ⟨hreq, patterns, hmem⟩ := matchHighConfidence_some visited name providerSet p hh
    exact ⟨rfl, hreq, highConfidence_providers p patterns (hperm.mem_iff.mp hmem)⟩
  | none =>
    rw [hh] at hmatch
    simp only at hmatch ⊢
    by_cases ht : providerSet ProviderTerraform = true
    · by_cases hs : (HasSuffix name ".tf" || HasSuffix name ".tfvars") = true
      · rw [if_pos ht, if_pos hs]
        have hin : ProviderTerraform ∈ ["docker", "terraform", "helm"] := by decide
        exact ⟨rfl, ht, hin⟩
      · simp [ht, hs] at hmatch
    · simp [ht] at hmatch

/-- C14: for every path, file name and requested-provider set, and whatever the
order in which the pattern table is visited, if `matchFile` reports a match then the
returned file has the given path and a provider that is in the requested set and is
one of docker, terraform and helm; so when the requested set holds only kubernetes,
cloudformation and ansible, `matchFile` reports no match for any file name. -/
theorem matchFile_provider_requested (visited : List (String × List FilePattern))
    (hperm : visited.Perm HighConfidencePatterns) (path name : String)
    (providerSet : String → Bool) :
    ((matchFile visited path name providerSet).2 = true →
      (matchFile visited path name providerSet).1.Path = path ∧
      providerSet (matchFile visited path name providerSet).1.Provider = true ∧
      (matchFile visited path name providerSet).1.Provider ∈ ["docker", "terraform", "helm"]) ∧
    ((∀ p, providerSet p = true → p ∈ ["kubernetes", "cloudformation", "ansible"]) →
      (matchFile visited path name providerSet).2 = false) := by
  refine ⟨matchFile_match_cases visited hperm path name providerSet, ?_⟩
  intro honly
  by_contra hne
  have hmatch : (matchFile visited path name providerSet).2 = true := by
    simpa using hne
  obtain ⟨_, hreq, hmem⟩ := matchFile_match_cases visited hperm path name providerSet hmatch
  have hyaml := honly _ hreq
  generalize (matchFile visited path name providerSet).1.Provider = q at hmem hyaml
  simp only [List.mem_cons, List.mem_singleton, List.mem_nil_iff, or_false] at hmem hyaml
  rcases hmem with h | h | h <;> subst h <;> revert hyaml <;> decide

theorem matchFile_provider_requested_witness :
    terraformFirst.Perm HighConfidencePatterns ∧
    matchFile terraformFirst "infra/main.tf" "main.tf" (providerSetOf [])
      = ({ Path := "infra/main.tf", Provider := "terraform" }, true) ∧
    providerSetOf [] "terraform" = true ∧
    (matchFile terraformFirst "k8s/deployment.yaml" "deployment.yaml" yamlOnlyProviders).2
      = false ∧
    (matchFile terraformFirst "ops/playbook.yml" "playbook.yml" yamlOnlyProviders).2 = false :=
  have hperm : terraformFirst.Perm HighConfidencePatterns := List.Perm.swap _ _ _
  have honly : ∀ p, yamlOnlyProviders p = true →
      p ∈ ["kubernetes", "cloudformation", "ansible"] := by
    intro p hp
    simpa [yamlOnlyProviders, or_assoc] using hp
  have h1 := (matchFile_provider_requested terraformFirst hperm "infra/main.tf" "main.tf"
    (providerSetOf [])).1 (by decide)
  ⟨hperm, by decide, by decide,
   (matchFile_provider_requested terraformFirst hperm "k8s/deployment.yaml" "deployment.yaml"
      yamlOnlyProviders).2 honly,
   (matchFile_provider_requested terraformFirst hperm "ops/playbook.yml" "playbook.yml"
      yamlOnlyProviders).2 honly⟩

/-! ## The concurrent scan -/

theorem perm_append_middle (xs initial as bs : List ScanResult) (r : ScanResult)
    (h : xs.Perm (initial ++ (as ++ bs))) :
    (xs ++ [r]).Perm (initial ++ (as ++ (r :: bs))) := by
  have h1 : (xs ++ [r]).Perm (r :: xs) := List.perm_append_singleton r xs
  have h2 : (r :: xs).Perm (r :: (initial ++ (as ++ bs))) := List.Perm.cons r h
  have h3 : (initial ++ (as ++ (r :: bs))).Perm (r :: (initial ++ (as ++ bs))) := by
    rw [← List.append_assoc, ← List.append_assoc]
    exact List.perm_middle
  exact (h1.trans h2).trans h3.symm

theorem mem_update (pre post : List Task) (old new t : Task)
    (h : t ∈ pre ++ new :: post) : t ∈ pre ++ old :: post ∨ t = new := by
  simp only [List.mem_append, List.mem_cons] at h ⊢
  rcases h with h | h | h
  · exact Or.inl (Or.inl h)
  · exact Or.inr h
  · exact Or.inl (Or.inr (Or.inr h))

theorem mem_old (pre post : List Task) (old : Task) : old ∈ pre ++ old :: post := by
  simp

theorem critical_unique (pre post : List Task) (a : Task) (mu : Bool)
    (hm : (pre ++ a :: post).countP (fun t => t.pc.inCritical) = if mu then 1 else 0)
    (ha : a.pc.inCritical = true) :
    mu = true ∧ pre.countP (fun t => t.pc.inCritical) = 0 ∧
      post.countP (fun t => t.pc.inCritical) = 0 := by
  rw [List.countP_append, List.countP_cons] at hm
  simp only [ha, if_true] at hm
  cases mu with
  | false =>
    simp only [Bool.false_eq_true, if_false] at hm
    omega
  | true =>
    simp only [if_true] at hm
    exact ⟨rfl, by omega, by omega⟩

theorem not_critical_of_count (l : List Task) (h : l.countP (fun t => t.pc.inCritical) = 0)
    (t : Task) (ht : t ∈ l) : t.pc.inCritical = false := by
  rw [List.countP_eq_zero] at h
  simpa using h t ht

theorem concInv_init (e : Engine) (files : List File) (initial : List ScanResult) :
    ConcInv e files initial (concInit files initial) := by
  refine ⟨?_, ?_, ?_, ?_, ?_, ?_, ?_, ?_⟩ <;> simp [concInit]

theorem concInv_step (e : Engine) (files : List File) (initial : List ScanResult)
    (s s' : ConcState) (hinv : ConcInv e files initial s) (hstep : ConcStep e s s') :
    ConcInv e files initial s' := by
  cases hstep with
  | receive file pending tasks scanResults mu wg =>
    obtain ⟨hd, hc, hj, hm, hs, hk, hf, ha⟩ := hinv
    simp only at hd hc hj hm hs hk hf ha
    refine ⟨?_, ?_, ?_, ?_, ?_, ?_, ?_, ?_⟩
    · simpa using hd
    · simp [List.countP_append, TaskPc.active, hc]
    · simp
    · simpa [List.countP_append, TaskPc.inCritical] using hm
    · intro t ht result seen hpc
      simp only [List.mem_append, List.mem_singleton] at ht
      rcases ht with ht | ht
      · exact hs t ht result seen hpc
      · subst ht
        simp at hpc
    · intro t ht result hpc
      simp only [List.mem_append, List.mem_singleton] at ht
      rcases ht with ht | ht
      · exact hk t ht result hpc
      · subst ht
        simp [TaskPc.carried] at hpc
    · intro t ht hpc
      simp only [List.mem_append, List.mem_singleton] at ht
      rcases ht with ht | ht
      · exact hf t ht hpc
      · subst ht
        simp at hpc
    · simpa [List.flatMap_append, Task.contributed, TaskPc.written] using ha
  | closed tasks scanResults mu wg =>
    obtain ⟨hd, hc, hj, hm, hs, hk, hf, ha⟩ := hinv
    exact ⟨by simpa using hd, hc, by simp, hm, hs, hk, hf, ha⟩
  | join tasks scanResults mu =>
    obtain ⟨hd, hc, hj, hm, hs, hk, hf, ha⟩ := hinv
    exact ⟨by simpa using hd, hc, by simp, hm, hs, hk, hf, ha⟩
  | scanOk main pre post file result scanResults mu wg hscan =>
    obtain ⟨hd, hc, hj, hm, hs, hk, hf, ha⟩ := hinv
    simp only at hd hc hj hm hs hk hf ha
    refine ⟨?_, ?_, ?_, ?_, ?_, ?_, ?_, ?_⟩
    · simpa using hd
    · simpa [List.countP_append, List.countP_cons, TaskPc.active] using hc
    · exact hj
    · simpa [List.countP_append, List.countP_cons, TaskPc.inCritical] using hm
    · intro t ht r seen hpc
      rcases mem_update pre post ⟨file, .scanning⟩ _ t ht with h | h
      · exact hs t h r seen hpc
      · subst h
        simp at hpc
    · intro t ht r hpc
      rcases mem_update pre post ⟨file, .scanning⟩ _ t ht with h | h
      · exact hk t h r hpc
      · subst h
        simp only [TaskPc.carried, Option.some.injEq] at hpc
        subst hpc
        exact hscan
    · intro t ht hpc
      rcases mem_update pre post ⟨file, .scanning⟩ _ t ht with h | h
      · exact hf t h hpc
      · subst h
        simp at hpc
    · simpa [List.flatMap_append, List.flatMap_cons, Task.contributed, TaskPc.written] using ha
  | scanErr main pre post file err scanResults mu wg hscan =>
    obtain ⟨hd, hc, hj, hm, hs, hk, hf, ha⟩ := hinv
    simp only at hd hc hj hm hs hk hf ha
    refine ⟨?_, ?_, ?_, ?_, ?_, ?_, ?_, ?_⟩
    · simpa using hd
    · simpa [List.countP_append, List.countP_cons, TaskPc.active] using hc
    · exact hj
    · simpa [List.countP_append, List.countP_cons, TaskPc.inCritical] using hm
    · intro t ht r seen hpc
      rcases mem_update pre post ⟨file, .scanning⟩ _ t ht with h | h
      · exact hs t h r seen hpc
      · subst h
        simp at hpc
    · intro t ht r hpc
      rcases mem_update pre post ⟨file, .scanning⟩ _ t ht with h | h
      · exact hk t h r hpc
      · subst h
        simp [TaskPc.carried] at hpc
    · intro t ht hpc
      rcases mem_update pre post ⟨file, .scanning⟩ _ t ht with h | h
      · exact hf t h hpc
      · subst h
        simp [fileResults, hscan]
    · simpa [List.flatMap_append, List.flatMap_cons, Task.contributed, TaskPc.written] using ha
  | lock main pre post file result scanResults wg =>
    obtain ⟨hd, hc, hj, hm, hs, hk, hf, ha⟩ := hinv
    simp only at hd hc hj hm hs hk hf ha
    refine ⟨?_, ?_, ?_, ?_, ?_, ?_, ?_, ?_⟩
    · simpa using hd
    · simpa [List.countP_append, List.countP_cons, TaskPc.active] using hc
    · exact hj
    · simp only [List.countP_append, List.countP_cons, TaskPc.inCritical, Bool.false_eq_true,
        if_false, if_true] at hm ⊢
      omega
    · intro t ht r seen hpc
      rcases mem_update pre post ⟨file, .waiting result⟩ _ t ht with h | h
      · exact hs t h r seen hpc
      · subst h
        simp at hpc
    · intro t ht r hpc
      rcases mem_update pre post ⟨file, .waiting result⟩ _ t ht with h | h
      · exact hk t h r hpc
      · subst h
        exact hk ⟨file, .waiting result⟩ (mem_old pre post _) r (by simpa [TaskPc.carried] using hpc)
    · intro t ht hpc
      rcases mem_update pre post ⟨file, .waiting result⟩ _ t ht with h | h
      · exact hf t h hpc
      · subst h
        simp at hpc
    · simpa [List.flatMap_append, List.flatMap_cons, Task.contributed, TaskPc.written] using ha
  | read main pre post file result scanResults mu wg =>
    obtain ⟨hd, hc, hj, hm, hs, hk, hf, ha⟩ := hinv
    simp only at hd hc hj hm hs hk hf ha
    refine ⟨?_, ?_, ?_, ?_, ?_, ?_, ?_, ?_⟩
    · simpa using hd
    · simpa [List.countP_append, List.countP_cons, TaskPc.active] using hc
    · exact hj
    · simpa [List.countP_append, List.countP_cons, TaskPc.inCritical] using hm
    · intro t ht r seen hpc
      rcases mem_update pre post ⟨file, .locked result⟩ _ t ht with h | h
      · exact hs t h r seen hpc
      · subst h
        simp only [TaskPc.appending.injEq] at hpc
        exact hpc.2.symm
    · intro t ht r hpc
      rcases mem_update pre post ⟨file, .locked result⟩ _ t ht with h | h
      · exact hk t h r hpc
      · subst h
        exact hk ⟨file, .locked result⟩ (mem_old pre post _) r (by simpa [TaskPc.carried] using hpc)
    · intro t ht hpc
      rcases mem_update pre post ⟨file, .locked result⟩ _ t ht with h | h
      · exact hf t h hpc
      · subst h
        simp at hpc
    · simpa [List.flatMap_append, List.flatMap_cons, Task.contributed, TaskPc.written] using ha
  | write main pre post file result seen scanResults mu wg =>
    obtain ⟨hd, hc, hj, hm, hs, hk, hf, ha⟩ := hinv
    simp only at hd hc hj hm hs hk hf ha
    have hseen : seen = scanResults :=
      hs ⟨file, .appending result seen⟩ (mem_old pre post _) result seen rfl
    have hres : e.scanFile file = .ok result :=
      hk ⟨file, .appending result seen⟩ (mem_old pre post _) result rfl
    obtain ⟨_, hpre, hpost⟩ := critical_unique pre post ⟨file, .appending result seen⟩ mu hm rfl
    refine ⟨?_, ?_, ?_, ?_, ?_, ?_, ?_, ?_⟩
    · simpa using hd
    · simpa [List.countP_append, List.countP_cons, TaskPc.active] using hc
    · exact hj
    · simpa [List.countP_append, List.countP_cons, TaskPc.inCritical] using hm
    · intro t ht r seen2 hpc
      simp only [List.mem_append, List.mem_cons] at ht
      rcases ht with h | h | h
      · have := not_critical_of_count pre hpre t h
        simp [hpc, TaskPc.inCritical] at this
      · subst h
        simp at hpc
      · have := not_critical_of_count post hpost t h
        simp [hpc, TaskPc.inCritical] at this
    · intro t ht r hpc
      rcases mem_update pre post ⟨file, .appending result seen⟩ _ t ht with h | h
      · exact hk t h r hpc
      · subst h
        simp [TaskPc.carried] at hpc
    · intro t ht hpc
      rcases mem_update pre post ⟨file, .appending result seen⟩ _ t ht with h | h
      · exact hf t h hpc
      · subst h
        simp at hpc
    · subst hseen
      simp only [List.flatMap_append, List.flatMap_cons, Task.contributed, TaskPc.written,
        Bool.false_eq_true, if_false, if_true, List.nil_append, fileResults, hres,
        List.singleton_append] at ha ⊢
      exact perm_append_middle _ _ _ _ _ ha
  | unlock main pre post file scanResults mu wg =>
    obtain ⟨hd, hc, hj, hm, hs, hk, hf, ha⟩ := hinv
    simp only at hd hc hj hm hs hk hf ha
    obtain ⟨_, hpre, hpost⟩ := critical_unique pre post ⟨file, .appended⟩ mu hm rfl
    refine ⟨?_, ?_, ?_, ?_, ?_, ?_, ?_, ?_⟩
    · simpa using hd
    · simpa [List.countP_append, List.countP_cons, TaskPc.active] using hc
    · exact hj
    · rw [List.countP_append, List.countP_cons, hpre, hpost]
      simp [TaskPc.inCritical]
    · intro t ht r seen hpc
      rcases mem_update pre post ⟨file, .appended⟩ _ t ht with h | h
      · exact hs t h r seen hpc
      · subst h
        simp at hpc
    · intro t ht r hpc
      rcases mem_update pre post ⟨file, .appended⟩ _ t ht with h | h
      · exact hk t h r hpc
      · subst h
        simp [TaskPc.carried] at hpc
    · intro t ht hpc
      rcases mem_update pre post ⟨file, .appended⟩ _ t ht with h | h
      · exact hf t h hpc
      · subst h
        simp at hpc
    · simpa [List.flatMap_append, List.flatMap_cons, Task.contributed, TaskPc.written] using ha
  | doneOk main pre post file scanResults mu wg =>
    obtain ⟨hd, hc, hj, hm, hs, hk, hf, ha⟩ := hinv
    simp only at hd hc hj hm hs hk hf ha
    refine ⟨?_, ?_, ?_, ?_, ?_, ?_, ?_, ?_⟩
    · simpa using hd
    · simp only [List.countP_append, List.countP_cons, TaskPc.active, Bool.false_eq_true,
        if_false, if_true] at hc ⊢
      omega
    · intro hmain
      have := hj hmain
      omega
    · simpa [List.countP_append, List.countP_cons, TaskPc.inCritical] using hm
    · intro t ht r seen hpc
      rcases mem_update pre post ⟨file, .unlocked⟩ _ t ht with h | h
      · exact hs t h r seen hpc
      · subst h
        simp at hpc
    · intro t ht r hpc
      rcases mem_update pre post ⟨file, .unlocked⟩ _ t ht with h | h
      · exact hk t h r hpc
      · subst h
        simp [TaskPc.carried] at hpc
    · intro t ht hpc
      rcases mem_update pre post ⟨file, .unlocked⟩ _ t ht with h | h
      · exact hf t h hpc
      · subst h
        simp at hpc
    · simpa [List.flatMap_append, List.flatMap_cons, Task.contributed, TaskPc.written] using ha
  | doneErr main pre post file scanResults mu wg =>
    obtain ⟨hd, hc, hj, hm, hs, hk, hf, ha⟩ := hinv
    simp only at hd hc hj hm hs hk hf ha
    have hnone : fileResults e file = [] := hf ⟨file, .failed⟩ (mem_old pre post _) rfl
    refine ⟨?_, ?_, ?_, ?_, ?_, ?_, ?_, ?_⟩
    · simpa using hd
    · simp only [List.countP_append, List.countP_cons, TaskPc.active, Bool.false_eq_true,
        if_false, if_true] at hc ⊢
      omega
    · intro hmain
      have := hj hmain
      omega
    · simpa [List.countP_append, List.countP_cons, TaskPc.inCritical] using hm
    · intro t ht r seen hpc
      rcases mem_update pre post ⟨file, .failed⟩ _ t ht with h | h
      · exact hs t h r seen hpc
      · subst h
        simp at hpc
    · intro t ht r hpc
      rcases mem_update pre post ⟨file, .failed⟩ _ t ht with h | h
      · exact hk t h r hpc
      · subst h
        simp [TaskPc.carried] at hpc
    · intro t ht hpc
      rcases mem_update pre post ⟨file, .failed⟩ _ t ht with h | h
      · exact hf t h hpc
      · subst h
        simp at hpc
    · simpa [List.flatMap_append, List.flatMap_cons, Task.contributed, TaskPc.written, hnone]
        using ha

theorem concInv_reachable (e : Engine) (files : List File) (initial : List ScanResult)
    (s : ConcState) (hreach : ConcReachable e files initial s) : ConcInv e files initial s := by
  unfold ConcReachable at hreach
  induction hreach with
  | refl => exact concInv_init e files initial
  | tail _ hstep ih => exact concInv_step e files initial _ _ ih hstep

theorem concStep_stepsLeft (e : Engine) (s s' : ConcState) (hstep : ConcStep e s s') :
    s'.stepsLeft < s.stepsLeft := by
  cases hstep <;>
    simp only [ConcState.stepsLeft, TaskPc.stepsLeft, List.map_append, List.map_cons,
      List.map_nil, List.sum_append, List.sum_cons, List.sum_nil, List.length_cons] <;>
    omega

theorem concStep_progress (e : Engine) (files : List File) (initial : List ScanResult)
    (s : ConcState) (hinv : ConcInv e files initial s) (hmain : s.main ≠ .joined) :
    ∃ s', ConcStep e s s' := by
  obtain ⟨main, tasks, scanResults, mu, wg⟩ := s
  obtain ⟨_, hc, _, hm, _, _, _, _⟩ := hinv
  simp only at hc hm hmain
  cases main with
  | joined => exact absurd rfl hmain
  | receiving pending =>
    cases pending with
    | nil => exact ⟨_, ConcStep.closed tasks scanResults mu wg⟩
    | cons file rest => exact ⟨_, ConcStep.receive file rest tasks scanResults mu wg⟩
  | waiting =>
    cases wg with
    | zero => exact ⟨_, ConcStep.join tasks scanResults mu⟩
    | succ n =>
      have hcrit : ∀ t ∈ tasks, t.pc.inCritical = true → ∃ s', ConcStep e
          ⟨.waiting, tasks, scanResults, mu, n + 1⟩ s' := by
        intro t ht hin
        obtain ⟨pre, post, hsplit⟩ := List.append_of_mem ht
        subst hsplit
        obtain ⟨file, pc⟩ := t
        cases pc with
        | locked r => exact ⟨_, ConcStep.read _ pre post file r scanResults mu (n + 1)⟩
        | appending r seen =>
          exact ⟨_, ConcStep.write _ pre post file r seen scanResults mu (n + 1)⟩
        | appended => exact ⟨_, ConcStep.unlock _ pre post file scanResults mu (n + 1)⟩
        | scanning => simp [TaskPc.inCritical] at hin
        | failed => simp [TaskPc.inCritical] at hin
        | waiting r => simp [TaskPc.inCritical] at hin
        | unlocked => simp [TaskPc.inCritical] at hin
        | finished => simp [TaskPc.inCritical] at hin
      have hpos : 0 < tasks.countP (fun t => t.pc.active) := by omega
      obtain ⟨t, ht, hact⟩ := List.countP_pos_iff.mp hpos
      obtain ⟨pre, post, hsplit⟩ := List.append_of_mem ht
      obtain ⟨file, pc⟩ := t
      cases pc with
      | locked r => exact hcrit _ ht rfl
      | appending r seen => exact hcrit _ ht rfl
      | appended => exact hcrit _ ht rfl
      | finished => simp [TaskPc.active] at hact
      | scanning =>
        subst hsplit
        cases hscan : e.scanFile file with
        | ok r => exact ⟨_, ConcStep.scanOk _ pre post file r scanResults mu (n + 1) hscan⟩
        | error err =>
          exact ⟨_, ConcStep.scanErr _ pre post file err scanResults mu (n + 1) hscan⟩
      | failed =>
        subst hsplit
        exact ⟨_, ConcStep.doneErr _ pre post file scanResults mu n⟩
      | unlocked =>
        subst hsplit
        exact ⟨_, ConcStep.doneOk _ pre post file scanResults mu n⟩
      | waiting r =>
        cases mu with
        | false =>
          subst hsplit
          exact ⟨_, ConcStep.lock _ pre post file r scanResults (n + 1)⟩
        | true =>
          have hone : 0 < tasks.countP (fun t => t.pc.inCritical) := by
            rw [hm]
            simp
          obtain ⟨t2, ht2, hin2⟩ := List.countP_pos_iff.mp hone
          exact hcrit t2 ht2 (by simpa using hin2)

theorem conc_reaches_joined (e : Engine) (files : List File) (initial : List ScanResult) :
    ∀ (n : Nat) (s : ConcState), s.stepsLeft = n → ConcInv e files initial s →
      ∃ s', Relation.ReflTransGen (ConcStep e) s s' ∧ s'.main = .joined := by
  intro n
  induction n using Nat.strong_induction_on with
  | _ n ih =>
    intro s hn hinv
    by_cases hmain : s.main = .joined
    · exact ⟨s, Relation.ReflTransGen.refl, hmain⟩
    · obtain ⟨s1, hstep⟩ := concStep_progress e files initial s hinv hmain
      have hlt := concStep_stepsLeft e s s1 hstep
      obtain ⟨s', hpath, hjoined⟩ := ih s1.stepsLeft (by omega) s1 rfl
        (concInv_step e files initial s s1 hinv hstep)
      exact ⟨s', Relation.ReflTransGen.head hstep hpath, hjoined⟩

theorem scanAll_eq_flatMap (e : Engine) (files : List File) (acc : List ScanResult) :
    e.scanAll files acc = acc ++ files.flatMap (fileResults e) := by
  unfold Engine.scanAll
  induction files generalizing acc with
  | nil => simp
  | cons file rest ih =>
    rw [List.foldl_cons, ih, List.flatMap_cons]
    unfold fileResults
    cases e.scanFile file <;> simp

theorem fileResults_cases (e : Engine) (file : File) :
    fileResults e file = [] ∨ ∃ r, fileResults e file = [r] := by
  unfold fileResults
  cases e.scanFile file with
  | error err => exact Or.inl rfl
  | ok r => exact Or.inr ⟨r, rfl⟩

theorem flatMap_split (e : Engine) (files : List File) (m1 m2 : List ScanResult)
    (h : files.flatMap (fileResults e) = m1 ++ m2) :
    ∃ p1 p2, files = p1 ++ p2 ∧ p1.flatMap (fileResults e) = m1 ∧
      p2.flatMap (fileResults e) = m2 := by
  induction files generalizing m1 with
  | nil =>
    simp only [List.flatMap_nil] at h
    have h1 : m1 = [] := (List.append_eq_nil.mp h.symm).1
    have h2 : m2 = [] := (List.append_eq_nil.mp h.symm).2
    exact ⟨[], [], rfl, by simp [h1], by simp [h2]⟩
  | cons f rest ih =>
    rw [List.flatMap_cons] at h
    rcases fileResults_cases e f with hf | ⟨r, hf⟩
    · rw [hf, List.nil_append] at h
      obtain ⟨p1, p2, hsplit, h1, h2⟩ := ih m1 h
      exact ⟨f :: p1, p2, by simp [hsplit], by simp [List.flatMap_cons, hf, h1], h2⟩
    · rw [hf] at h
      cases m1 with
      | nil =>
        refine ⟨[], f :: rest, rfl, rfl, ?_⟩
        rw [List.flatMap_cons, hf]
        simpa using h
      | cons b m1' =>
        simp only [List.singleton_append, List.cons_append, List.cons.injEq] at h
        obtain ⟨hb, hrest⟩ := h
        obtain ⟨p1, p2, hsplit, h1, h2⟩ := ih m1' hrest
        exact ⟨f :: p1, p2, by simp [hsplit], by simp [List.flatMap_cons, hf, h1, hb], h2⟩

theorem perm_lift (e : Engine) (files : List File) (m : List ScanResult)
    (h : m.Perm (files.flatMap (fileResults e))) :
    ∃ order : List File, order.Perm files ∧ order.flatMap (fileResults e) = m := by
  induction files generalizing m with
  | nil =>
    simp only [List.flatMap_nil] at h
    exact ⟨[], List.Perm.refl _, by simp [List.Perm.eq_nil h]⟩
  | cons f rest ih =>
    rw [List.flatMap_cons] at h
    rcases fileResults_cases e f with hf | ⟨r, hf⟩
    · rw [hf, List.nil_append] at h
      obtain ⟨order, hperm, hmap⟩ := ih m h
      exact ⟨f :: order, List.Perm.cons f hperm, by simp [List.flatMap_cons, hf, hmap]⟩
    · rw [hf, List.singleton_append] at h
      have hmem : r ∈ m := h.mem_iff.mpr (by simp)
      obtain ⟨m1, m2, hm⟩ := List.append_of_mem hmem
      subst hm
      have h2 : (m1 ++ m2).Perm (rest.flatMap (fileResults e)) :=
        (List.perm_cons r).mp (List.perm_middle.symm.trans h)
      obtain ⟨order, hperm, hmap⟩ := ih (m1 ++ m2) h2
      obtain ⟨p1, p2, hsplit, h1, h2⟩ := flatMap_split e order m1 m2 hmap
      subst hsplit
      refine ⟨p1 ++ f :: p2, ?_, ?_⟩
      · exact List.perm_middle.trans (List.Perm.cons f hperm)
      · simp [List.flatMap_append, List.flatMap_cons, hf, h1, h2]

theorem conc_joined_facts (e : Engine) (files : List File) (initial : List ScanResult)
    (s : ConcState) (hinv : ConcInv e files initial s) (hmain : s.main = .joined) :
    (∀ t ∈ s.tasks, t.pc = .finished) ∧ s.tasks.map Task.file = files ∧
      s.scanResults.Perm (e.scanAll files initial) := by
  obtain ⟨hd, hc, hj, _, _, _, _, ha⟩ := hinv
  have hzero : s.tasks.countP (fun t => t.pc.active) = 0 := by
    rw [← hc]
    exact hj hmain
  have hfin : ∀ t ∈ s.tasks, t.pc = .finished := by
    intro t ht
    rw [List.countP_eq_zero] at hzero
    have h := hzero t ht
    cases hpc : t.pc <;> simp [hpc, TaskPc.active] at h ⊢
  have hfiles : s.tasks.map Task.file = files := by
    rw [hmain] at hd
    simpa using hd
  refine ⟨hfin, hfiles, ?_⟩
  have hcontrib : s.tasks.flatMap (Task.contributed e)
      = (s.tasks.map Task.file).flatMap (fileResults e) := by
    rw [List.flatMap_map]
    apply List.flatMap_congr
    intro t ht
    simp [Task.contributed, hfin t ht, TaskPc.written]
  rw [scanAll_eq_flatMap, ← hfiles, ← hcontrib]
  exact ha

theorem conc_joined_stuck (e : Engine) (s s' : ConcState)
    (hfin : ∀ t ∈ s.tasks, t.pc = .finished) (hmain : s.main = .joined) :
    ¬ ConcStep e s s' := by
  intro hstep
  cases hstep <;> simp only at hmain hfin <;> first
    | exact MainPc.noConfusion hmain
    | (have h := hfin _ (mem_old _ _ _)
       exact TaskPc.noConfusion h)

/-- C13: in the transition system of `scanConcurrent` (every interleaving of the steps
of the main routine and of the per-file tasks, the append being a read followed by
a write), for the files `files` sent on the channel: in every reachable state in
which `wg.Wait` has returned, every file has been dispatched to a task, every task
has finished, no step remains, and the shared slice holds exactly one result for
each file whose scan succeeded and is a permutation of the aggregate of the
sequential loop over the same files.  That aggregate is what `Scan` exports and
returns in sequential mode when batch discovery returns these files, and the shared
slice is what `Scan` exports and returns in concurrent mode when the channel
delivers them.  Before that state a step is always possible, and every step lowers
a bound, so every execution reaches it. -/
theorem scanConcurrent_aggregate (e : Engine) (files : List File) (s : ConcState)
    (hreach : ConcReachable e files [] s) :
    (s.main = .joined →
      (∀ t ∈ s.tasks, t.pc = .finished) ∧
      s.tasks.map Task.file = files ∧
      (∀ s', ¬ ConcStep e s s') ∧
      s.scanResults.Perm (files.flatMap (fileResults e)) ∧
      s.scanResults.Perm (e.scanAll files []) ∧
      (∀ root sched,
        e.detector.DetectFiles root e.config.ExcludeDirs e.config.Providers = (files, none) →
        (e.inMode true).Scan sched root = e.exportResults (e.scanAll files [])) ∧
      (∀ root,
        e.detector.DetectFilesChannel root e.config.ExcludeDirs e.config.Providers
          = (files, none) →
        ∃ order : List File, order.Perm files ∧
          ∀ sched : List File → List File, sched files = order →
            (e.inMode false).Scan sched root = e.exportResults s.scanResults)) ∧
    (s.main ≠ .joined → ∃ s', ConcStep e s s') ∧
    (∀ s', ConcStep e s s' → s'.stepsLeft < s.stepsLeft) ∧
    (∃ s', Relation.ReflTransGen (ConcStep e) s s' ∧ s'.main = .joined) := by
  have hinv := concInv_reachable e files [] s hreach
  refine ⟨?_, concStep_progress e files [] s hinv, concStep_stepsLeft e s,
    conc_reaches_joined e files [] s.stepsLeft s rfl hinv⟩
  intro hmain
  obtain ⟨hfin, hfiles, hperm⟩ := conc_joined_facts e files [] s hinv hmain
  have hflat : s.scanResults.Perm (files.flatMap (fileResults e)) := by
    rw [scanAll_eq_flatMap, List.nil_append] at hperm
    exact hperm
  refine ⟨hfin, hfiles, fun s' => conc_joined_stuck e s s' hfin hmain, hflat, hperm, ?_, ?_⟩
  · intro root sched hseq
    have hmode : (e.inMode true).Scan sched root = (e.inMode true).scanSequential root := rfl
    rw [hmode]
    unfold Engine.scanSequential
    have hdet : (e.inMode true).detector.DetectFiles root (e.inMode true).config.ExcludeDirs
        (e.inMode true).config.Providers = (files, none) := hseq
    rw [hdet]
    rfl
  · intro root hchan
    obtain ⟨order, horder, hmap⟩ := perm_lift e files s.scanResults hflat
    refine ⟨order, horder, ?_⟩
    intro sched hsched
    have hmode : (e.inMode false).Scan sched root
        = (e.inMode false).scanConcurrent sched root [] := rfl
    rw [hmode]
    unfold Engine.scanConcurrent
    have hdet : (e.inMode false).detector.DetectFilesChannel root
        (e.inMode false).config.ExcludeDirs (e.inMode false).config.Providers
          = (files, none) := hchan
    rw [hdet]
    simp only
    rw [hsched]
    have hall : (e.inMode false).scanAll order [] = e.scanAll order [] := rfl
    rw [hall, scanAll_eq_flatMap, List.nil_append, hmap]
    rfl

theorem scanConcurrent_aggregate_witness :
    ConcReachable (mixedEngine false) fourFiles [] contendedState ∧
    (∃ s', ConcStep (mixedEngine false) contendedState s') ∧
    ConcReachable (mixedEngine false) fourFiles [] racedState ∧
    racedState.scanResults
      = [lowResultAt "repo/api/Dockerfile", lowResultAt "repo/Dockerfile"] ∧
    (mixedEngine false).scanAll fourFiles []
      = [lowResultAt "repo/Dockerfile", lowResultAt "repo/api/Dockerfile"] ∧
    racedState.scanResults.Perm ((mixedEngine false).scanAll fourFiles []) ∧
    ((mixedEngine false).inMode true).Scan id "repo"
      = .ok [lowResultAt "repo/Dockerfile", lowResultAt "repo/api/Dockerfile"] ∧
    (∃ order : List File, order.Perm fourFiles ∧
      ((mixedEngine false).inMode false).Scan (fun _ => order) "repo"
        = .ok [lowResultAt "repo/api/Dockerfile", lowResultAt "repo/Dockerfile"]) ∧
    (∀ s', ¬ ConcStep (mixedEngine false) racedState s') :=
  have h0 : ConcReachable (mixedEngine false) fourFiles [] (concInit fourFiles []) :=
    Relation.ReflTransGen.refl
  have h1 : ConcReachable (mixedEngine false) fourFiles []
      ⟨.receiving [chartFile, terraformFile, apiDockerfile],
        [⟨repoDockerfile, .scanning⟩],
        [], false, 1⟩ :=
    Relation.ReflTransGen.tail h0
      (ConcStep.receive repoDockerfile [chartFile, terraformFile, apiDockerfile]
        [] [] false 0)
  have h2 : ConcReachable (mixedEngine false) fourFiles []
      ⟨.receiving [terraformFile, apiDockerfile],
        [⟨repoDockerfile, .scanning⟩, ⟨chartFile, .scanning⟩],
        [], false, 2⟩ :=
    Relation.ReflTransGen.tail h1
      (ConcStep.receive chartFile [terraformFile, apiDockerfile]
        [⟨repoDockerfile, .scanning⟩] [] false 1)
  have h3 : ConcReachable (mixedEngine false) fourFiles []
      ⟨.receiving [apiDockerfile],
        [⟨repoDockerfile, .scanning⟩, ⟨chartFile, .scanning⟩, ⟨terraformFile, .scanning⟩],
        [], false, 3⟩ :=
    Relation.ReflTransGen.tail h2
      (ConcStep.receive terraformFile [apiDockerfile]
        [⟨repoDockerfile, .scanning⟩, ⟨chartFile, .scanning⟩] [] false 2)
  have h4 : ConcReachable (mixedEngine false) fourFiles []
      ⟨.receiving [],
        [⟨repoDockerfile, .scanning⟩, ⟨chartFile, .scanning⟩, ⟨terraformFile, .scanning⟩, ⟨apiDockerfile, .scanning⟩],
        [], false, 4⟩ :=
    Relation.ReflTransGen.tail h3
      (ConcStep.receive apiDockerfile []
        [⟨repoDockerfile, .scanning⟩, ⟨chartFile, .scanning⟩, ⟨terraformFile, .scanning⟩] [] false 3)
  have h5 : ConcReachable (mixedEngine false) fourFiles []
      ⟨.receiving [],
        [⟨repoDockerfile, .scanning⟩, ⟨chartFile, .scanning⟩, ⟨terraformFile, .scanning⟩, ⟨apiDockerfile, .waiting (lowResultAt "repo/api/Dockerfile")⟩],
        [], false, 4⟩ :=
    Relation.ReflTransGen.tail h4
      (ConcStep.scanOk (.receiving [])
        [⟨repoDockerfile, .scanning⟩, ⟨chartFile, .scanning⟩, ⟨terraformFile, .scanning⟩]
        []
        apiDockerfile (lowResultAt "repo/api/Dockerfile") [] false 4 rfl)
  have h6 : ConcReachable (mixedEngine false) fourFiles []
      ⟨.receiving [],
        [⟨repoDockerfile, .waiting (lowResultAt "repo/Dockerfile")⟩, ⟨chartFile, .scanning⟩, ⟨terraformFile, .scanning⟩, ⟨apiDockerfile, .waiting (lowResultAt "repo/api/Dockerfile")⟩],
        [], false, 4⟩ :=
    Relation.ReflTransGen.tail h5
      (ConcStep.scanOk (.receiving [])
        []
        [⟨chartFile, .scanning⟩, ⟨terraformFile, .scanning⟩, ⟨apiDockerfile, .waiting (lowResultAt "repo/api/Dockerfile")⟩]
        repoDockerfile (lowResultAt "repo/Dockerfile") [] false 4 rfl)
  have h7 : ConcReachable (mixedEngine false) fourFiles []
      ⟨.receiving [],
        [⟨repoDockerfile, .waiting (lowResultAt "repo/Dockerfile")⟩, ⟨chartFile, .scanning⟩, ⟨terraformFile, .scanning⟩, ⟨apiDockerfile, .locked (lowResultAt "repo/api/Dockerfile")⟩],
        [], true, 4⟩ :=
    Relation.ReflTransGen.tail h6
      (ConcStep.lock (.receiving [])
        [⟨repoDockerfile, .waiting (lowResultAt "repo/Dockerfile")⟩, ⟨chartFile, .scanning⟩, ⟨terraformFile, .scanning⟩]
        []
        apiDockerfile (lowResultAt "repo/api/Dockerfile") [] 4)
  have h8 : ConcReachable (mixedEngine false) fourFiles []
      ⟨.receiving [],
        [⟨repoDockerfile, .waiting (lowResultAt "repo/Dockerfile")⟩, ⟨chartFile, .scanning⟩, ⟨terraformFile, .failed⟩, ⟨apiDockerfile, .locked (lowResultAt "repo/api/Dockerfile")⟩],
        [], true, 4⟩ :=
    Relation.ReflTransGen.tail h7
      (ConcStep.scanErr (.receiving [])
        [⟨repoDockerfile, .waiting (lowResultAt "repo/Dockerfile")⟩, ⟨chartFile, .scanning⟩]
        [⟨apiDockerfile, .locked (lowResultAt "repo/api/Dockerfile")⟩]
        terraformFile "parse error" [] true 4 rfl)
  have h9 : ConcReachable (mixedEngine false) fourFiles []
      ⟨.receiving [],
        [⟨repoDockerfile, .waiting (lowResultAt "repo/Dockerfile")⟩, ⟨chartFile, .scanning⟩, ⟨terraformFile, .failed⟩, ⟨apiDockerfile, .appending (lowResultAt "repo/api/Dockerfile") []⟩],
        [], true, 4⟩ :=
    Relation.ReflTransGen.tail h8
      (ConcStep.read (.receiving [])
        [⟨repoDockerfile, .waiting (lowResultAt "repo/Dockerfile")⟩, ⟨chartFile, .scanning⟩, ⟨terraformFile, .failed⟩]
        []
        apiDockerfile (lowResultAt "repo/api/Dockerfile") [] true 4)
  have h10 : ConcReachable (mixedEngine false) fourFiles []
      ⟨.waiting,
        [⟨repoDockerfile, .waiting (lowResultAt "repo/Dockerfile")⟩, ⟨chartFile, .scanning⟩, ⟨terraformFile, .failed⟩, ⟨apiDockerfile, .appending (lowResultAt "repo/api/Dockerfile") []⟩],
        [], true, 4⟩ :=
    Relation.ReflTransGen.tail h9
      (ConcStep.closed _ _ _ _)
  have h11 : ConcReachable (mixedEngine false) fourFiles []
      ⟨.waiting,
        [⟨repoDockerfile, .waiting (lowResultAt "repo/Dockerfile")⟩, ⟨chartFile, .scanning⟩, ⟨terraformFile, .failed⟩, ⟨apiDockerfile, .appended⟩],
        [(lowResultAt "repo/api/Dockerfile")], true, 4⟩ :=
    Relation.ReflTransGen.tail h10
      (ConcStep.write (.waiting)
        [⟨repoDockerfile, .waiting (lowResultAt "repo/Dockerfile")⟩, ⟨chartFile, .scanning⟩, ⟨terraformFile, .failed⟩]
        []
        apiDockerfile (lowResultAt "repo/api/Dockerfile") [] [] true 4)
  have h12 : ConcReachable (mixedEngine false) fourFiles []
      ⟨.waiting,
        [⟨repoDockerfile, .waiting (lowResultAt "repo/Dockerfile")⟩, ⟨chartFile, .failed⟩, ⟨terraformFile, .failed⟩, ⟨apiDockerfile, .appended⟩],
        [(lowResultAt "repo/api/Dockerfile")], true, 4⟩ :=
    Relation.ReflTransGen.tail h11
      (ConcStep.scanErr (.waiting)
        [⟨repoDockerfile, .waiting (lowResultAt "repo/Dockerfile")⟩]
        [⟨terraformFile, .failed⟩, ⟨apiDockerfile, .appended⟩]
        chartFile "no analyzer registered for provider: helm" [(lowResultAt "repo/api/Dockerfile")] true 4 rfl)
  have h13 : ConcReachable (mixedEngine false) fourFiles []
      ⟨.waiting,
        [⟨repoDockerfile, .waiting (lowResultAt "repo/Dockerfile")⟩, ⟨chartFile, .failed⟩, ⟨terraformFile, .failed⟩, ⟨apiDockerfile, .unlocked⟩],
        [(lowResultAt "repo/api/Dockerfile")], false, 4⟩ :=
    Relation.ReflTransGen.tail h12
      (ConcStep.unlock (.waiting)
        [⟨repoDockerfile, .waiting (lowResultAt "repo/Dockerfile")⟩, ⟨chartFile, .failed⟩, ⟨terraformFile, .failed⟩]
        []
        apiDockerfile [(lowResultAt "repo/api/Dockerfile")] true 4)
  have h14 : ConcReachable (mixedEngine false) fourFiles []
      ⟨.waiting,
        [⟨repoDockerfile, .locked (lowResultAt "repo/Dockerfile")⟩, ⟨chartFile, .failed⟩, ⟨terraformFile, .failed⟩, ⟨apiDockerfile, .unlocked⟩],
        [(lowResultAt "repo/api/Dockerfile")], true, 4⟩ :=
    Relation.ReflTransGen.tail h13
      (ConcStep.lock (.waiting)
        []
        [⟨chartFile, .failed⟩, ⟨terraformFile, .failed⟩, ⟨apiDockerfile, .unlocked⟩]
        repoDockerfile (lowResultAt "repo/Dockerfile") [(lowResultAt "repo/api/Dockerfile")] 4)
  have h15 : ConcReachable (mixedEngine false) fourFiles []
      ⟨.waiting,
        [⟨repoDockerfile, .locked (lowResultAt "repo/Dockerfile")⟩, ⟨chartFile, .failed⟩, ⟨terraformFile, .finished⟩, ⟨apiDockerfile, .unlocked⟩],
        [(lowResultAt "repo/api/Dockerfile")], true, 3⟩ :=
    Relation.ReflTransGen.tail h14
      (ConcStep.doneErr (.waiting)
        [⟨repoDockerfile, .locked (lowResultAt "repo/Dockerfile")⟩, ⟨chartFile, .failed⟩]
        [⟨apiDockerfile, .unlocked⟩]
        terraformFile [(lowResultAt "repo/api/Dockerfile")] true 3)
  have h16 : ConcReachable (mixedEngine false) fourFiles []
      ⟨.waiting,
        [⟨repoDockerfile, .appending (lowResultAt "repo/Dockerfile") [(lowResultAt "repo/api/Dockerfile")]⟩, ⟨chartFile, .failed⟩, ⟨terraformFile, .finished⟩, ⟨apiDockerfile, .unlocked⟩],
        [(lowResultAt "repo/api/Dockerfile")], true, 3⟩ :=
    Relation.ReflTransGen.tail h15
      (ConcStep.read (.waiting)
        []
        [⟨chartFile, .failed⟩, ⟨terraformFile, .finished⟩, ⟨apiDockerfile, .unlocked⟩]
        repoDockerfile (lowResultAt "repo/Dockerfile") [(lowResultAt "repo/api/Dockerfile")] true 3)
  have h17 : ConcReachable (mixedEngine false) fourFiles []
      ⟨.waiting,
        [⟨repoDockerfile, .appending (lowResultAt "repo/Dockerfile") [(lowResultAt "repo/api/Dockerfile")]⟩, ⟨chartFile, .failed⟩, ⟨terraformFile, .finished⟩, ⟨apiDockerfile, .finished⟩],
        [(lowResultAt "repo/api/Dockerfile")], true, 2⟩ :=
    Relation.ReflTransGen.tail h16
      (ConcStep.doneOk (.waiting)
        [⟨repoDockerfile, .appending (lowResultAt "repo/Dockerfile") [(lowResultAt "repo/api/Dockerfile")]⟩, ⟨chartFile, .failed⟩, ⟨terraformFile, .finished⟩]
        []
        apiDockerfile [(lowResultAt "repo/api/Dockerfile")] true 2)
  have h18 : ConcReachable (mixedEngine false) fourFiles []
      ⟨.waiting,
        [⟨repoDockerfile, .appended⟩, ⟨chartFile, .failed⟩, ⟨terraformFile, .finished⟩, ⟨apiDockerfile, .finished⟩],
        [(lowResultAt "repo/api/Dockerfile"), (lowResultAt "repo/Dockerfile")], true, 2⟩ :=
    Relation.ReflTransGen.tail h17
      (ConcStep.write (.waiting)
        []
        [⟨chartFile, .failed⟩, ⟨terraformFile, .finished⟩, ⟨apiDockerfile, .finished⟩]
        repoDockerfile (lowResultAt "repo/Dockerfile") [(lowResultAt "repo/api/Dockerfile")] [(lowResultAt "repo/api/Dockerfile")] true 2)
  have h19 : ConcReachable (mixedEngine false) fourFiles []
      ⟨.waiting,
        [⟨repoDockerfile, .unlocked⟩, ⟨chartFile, .failed⟩, ⟨terraformFile, .finished⟩, ⟨apiDockerfile, .finished⟩],
        [(lowResultAt "repo/api/Dockerfile"), (lowResultAt "repo/Dockerfile")], false, 2⟩ :=
    Relation.ReflTransGen.tail h18
      (ConcStep.unlock (.waiting)
        []
        [⟨chartFile, .failed⟩, ⟨terraformFile, .finished⟩, ⟨apiDockerfile, .finished⟩]
        repoDockerfile [(lowResultAt "repo/api/Dockerfile"), (lowResultAt "repo/Dockerfile")] true 2)
  have h20 : ConcReachable (mixedEngine false) fourFiles []
      ⟨.waiting,
        [⟨repoDockerfile, .unlocked⟩, ⟨chartFile, .finished⟩, ⟨terraformFile, .finished⟩, ⟨apiDockerfile, .finished⟩],
        [(lowResultAt "repo/api/Dockerfile"), (lowResultAt "repo/Dockerfile")], false, 1⟩ :=
    Relation.ReflTransGen.tail h19
      (ConcStep.doneErr (.waiting)
        [⟨repoDockerfile, .unlocked⟩]
        [⟨terraformFile, .finished⟩, ⟨apiDockerfile, .finished⟩]
        chartFile [(lowResultAt "repo/api/Dockerfile"), (lowResultAt "repo/Dockerfile")] false 1)
  have h21 : ConcReachable (mixedEngine false) fourFiles []
      ⟨.waiting,
        [⟨repoDockerfile, .finished⟩, ⟨chartFile, .finished⟩, ⟨terraformFile, .finished⟩, ⟨apiDockerfile, .finished⟩],
        [(lowResultAt "repo/api/Dockerfile"), (lowResultAt "repo/Dockerfile")], false, 0⟩ :=
    Relation.ReflTransGen.tail h20
      (ConcStep.doneOk (.waiting)
        []
        [⟨chartFile, .finished⟩, ⟨terraformFile, .finished⟩, ⟨apiDockerfile, .finished⟩]
        repoDockerfile [(lowResultAt "repo/api/Dockerfile"), (lowResultAt "repo/Dockerfile")] false 0)
  have h22 : ConcReachable (mixedEngine false) fourFiles []
      ⟨.joined,
        [⟨repoDockerfile, .finished⟩, ⟨chartFile, .finished⟩, ⟨terraformFile, .finished⟩, ⟨apiDockerfile, .finished⟩],
        [(lowResultAt "repo/api/Dockerfile"), (lowResultAt "repo/Dockerfile")], false, 0⟩ :=
    Relation.ReflTransGen.tail h21
      (ConcStep.join _ _ _)
  have hmid := (scanConcurrent_aggregate (mixedEngine false) fourFiles contendedState h7).2.1
    (by decide)
  have h := (scanConcurrent_aggregate (mixedEngine false) fourFiles racedState h22).1 rfl
  have hseq := h.2.2.2.2.2.1 "repo" id rfl
  have hconc := h.2.2.2.2.2.2 "repo" rfl
  ⟨h7, hmid, h22, rfl, by decide, h.2.2.2.2.1, hseq,
   hconc.elim (fun order ho => ⟨order, ho.1, ho.2 (fun _ => order) rfl⟩), h.2.2.1⟩

end InfraScout
